import Mathlib

/-!
# Verification of the `smash` shell's command execution engine

A shallow embedding of the core of the `smash` shell (files `eval.rs`,
`process.rs`, `shell.rs`, `expand.rs`, `builtins/`) into Lean 4, together
with theorems settling the claims about its specification.

Modelling conventions:
* Machine integers (`i32` exit codes) become `Int`; pids and job ids
  (`nix::unistd::Pid`, `JobId(usize)`) become `Nat`; terminal attributes
  (`termios::Termios`, an opaque snapshot) become `Nat`.
* `HashMap` becomes an association list observed only through `lookupA`,
  with `insertA` overwriting and `eraseA` removing a key.
* `Rc<Job>` sharing (the job registry, `pid_to_job`, `last_fore_job`) is
  modelled by the single owner `jobs` with the other positions holding the
  `JobId`; the only interior mutation (`Job.termios`, a `RefCell`) is
  modelled by updating the registry entry.
* The kernel is an oracle `OS`: `fork` hands out the pids in `OS.forks`
  in order, `waitpid` reports the events in `OS.events` in order, the
  controlling terminal is `OS.terminal`, standard error is the list
  `OS.stderr`, and every `tcsetpgrp`/`tcgetattr`/`tcsetattr` call is also
  logged in `OS.trace` to make their order provable.
* Fallible Rust control flow becomes the `Res` type: `ok` for a normal
  return, `err` for an `anyhow::Error` travelling up through `?`, `fatal`
  for `panic!`/`unreachable!`/`unimplemented!`/`expect` failures, `exited`
  for `std::process::exit` of the shell itself, and `blocked` for a
  blocking `waitpid` when the oracle has no further events.
* Kernel-only side effects that no shell state observes — creating and
  closing the anonymous pipe fds, and the parent-side `setpgid` backstop —
  are noted in comments at the place the source performs them but have no
  shell-visible effect to model.
-/

namespace Smash

/-- Process id (`nix::unistd::Pid`). -/
abbrev Pid := Nat

/-- Job id (`JobId(usize)` in `process.rs`). -/
abbrev JobId := Nat

/-- Opaque snapshot of terminal attributes (`termios::Termios`). -/
abbrev Termios := Nat

/-- `ExitStatus` from `process.rs`. -/
inductive ExitStatus : Type where
  | ExitedWith : Int → ExitStatus
  | Running : Pid → ExitStatus
  deriving DecidableEq, Repr

/-- `ProcessState` from `process.rs`. -/
inductive ProcessState : Type where
  | Running : ProcessState
  | Completed : Int → ProcessState
  | Stopped : Pid → ProcessState
  deriving DecidableEq, Repr

/-- `RunIf` of a pipeline. Modelled from the spec: `parser.rs` is not in
`src/`; §6 gives `Pipeline { run_if: {Always, Success, Failure}, … }`. -/
inductive RunIf : Type where
  | Always : RunIf
  | Success : RunIf
  | Failure : RunIf
  deriving DecidableEq, Repr

/-- A span of a word. Modelled from the spec and from the uses in
`expand.rs` (`Span::Literal(s)` and `Span::LiteralChars(..)`, the latter
being `unreachable!` in expansion). -/
inductive Span : Type where
  | Literal : String → Span
  | LiteralChars : List Char → Span
  deriving DecidableEq, Repr

/-- A word of a simple command: its list of spans (`parser::Word`).
Modelled from the spec (§6) and the uses in `expand.rs`. -/
structure Word : Type where
  spans : List Span
  deriving DecidableEq, Repr

/-- `parser::Command`. Modelled from the spec: §6 gives
`Command::Simple { argv: [Word] }`; `eval.rs` matches the single variant
`SimpleCommand { argv }`. -/
inductive Command : Type where
  | SimpleCommand : List Word → Command
  deriving DecidableEq, Repr

/-- `parser::Pipeline`. Modelled from the spec (§6). -/
structure Pipeline : Type where
  run_if : RunIf
  commands : List Command
  deriving DecidableEq, Repr

/-- `parser::Term`. Modelled from the spec (§6): source text, background
flag, pipelines. -/
structure Term : Type where
  code : String
  pipelines : List Pipeline
  background : Bool
  deriving DecidableEq, Repr

/-- `parser::Ast`. Modelled from the spec (§6). -/
structure Ast : Type where
  terms : List Term
  deriving DecidableEq, Repr

/-- The process execution context (`Context` in `process.rs`). -/
structure Context : Type where
  pgid : Option Pid
  background : Bool
  interactive : Bool
  deriving DecidableEq, Repr

/-- A kernel `waitpid` outcome, as the `nix::sys::wait::WaitStatus`
values distinguished by `wait_for_any_process`. `stillAlive` is
`Ok(WaitStatus::StillAlive)`, `echild` is `Err(Errno::ECHILD)`, and
`other` stands for every remaining outcome (the `status =>` panic arm). -/
inductive WaitEvent : Type where
  | exited : Pid → Int → WaitEvent
  | signaled : Pid → WaitEvent
  | stopped : Pid → WaitEvent
  | stillAlive : WaitEvent
  | echild : WaitEvent
  | other : WaitEvent
  deriving DecidableEq, Repr

/-- A terminal-control operation, logged in order of execution:
`tcsetpgrp(0, p)`, `tcsetattr(0, TCSADRAIN, t)`, `tcgetattr(0)`. -/
inductive TermOp : Type where
  | setPgrp : Pid → TermOp
  | setAttrs : Termios → TermOp
  | getAttrs : TermOp
  deriving DecidableEq, Repr

/-- The controlling terminal: its foreground process group and its
current attributes. -/
structure Terminal : Type where
  fgPgrp : Pid
  attrs : Termios
  deriving DecidableEq, Repr

/-- The kernel oracle threaded through the evaluation. -/
structure OS : Type where
  forks : List Pid
  events : List WaitEvent
  terminal : Terminal
  stderr : List String
  trace : List TermOp
  deriving DecidableEq, Repr

/-- Outcome of running a piece of the shell (see the module comment). -/
inductive Res (α : Type) : Type where
  | ok : α → Res α
  | err : Res α
  | fatal : Res α
  | exited : Int → Res α
  | blocked : Res α
  deriving DecidableEq, Repr

/-- Association-list lookup: the observation function of a `HashMap`. -/
def lookupA {β : Type} (l : List (Nat × β)) (k : Nat) : Option β :=
  match l with
  | [] => none
  | (k1, v) :: rest => if k1 = k then some v else lookupA rest k

/-- `HashMap::remove`: drop the key. -/
def eraseA {β : Type} : List (Nat × β) → Nat → List (Nat × β)
  | [], _ => []
  | (k1, v) :: rest, k =>
    if k1 = k then eraseA rest k else (k1, v) :: eraseA rest k

/-- `HashMap::insert`: overwrite the key. -/
def insertA {β : Type} (l : List (Nat × β)) (k : Nat) (v : β) : List (Nat × β) :=
  (k, v) :: eraseA l k

/-- Update the value at a key in place, when present. -/
def updateA {β : Type} : List (Nat × β) → Nat → (β → β) → List (Nat × β)
  | [], _, _ => []
  | (k1, v) :: rest, k, f =>
    if k1 = k then (k1, f v) :: updateA rest k f else (k1, v) :: updateA rest k f

/-- String-keyed association-list lookup (for the PATH table). -/
def lookupS {β : Type} (l : List (String × β)) (k : String) : Option β :=
  match l with
  | [] => none
  | (k1, v) :: rest => if k1 = k then some v else lookupS rest k

theorem lookupA_eraseA {β : Type} (l : List (Nat × β)) (k k1 : Nat) :
    lookupA (eraseA l k) k1 = if k = k1 then none else lookupA l k1 := by
  induction l with
  | nil => by_cases h : k = k1 <;> simp [lookupA, eraseA, h]
  | cons p rest ih =>
    obtain ⟨a, b⟩ := p
    by_cases h2 : a = k
    · subst h2
      by_cases h : a = k1
      · subst h
        simpa [lookupA, eraseA] using ih
      · simp [lookupA, eraseA, h, ih]
    · by_cases h3 : a = k1
      · subst h3
        have hk : ¬ k = a := fun hkk => h2 hkk.symm
        simp [lookupA, eraseA, h2, hk]
      · simp [lookupA, eraseA, h2, h3, ih]

theorem lookupA_insertA {β : Type} (l : List (Nat × β)) (k k1 : Nat) (v : β) :
    lookupA (insertA l k v) k1 = if k = k1 then some v else lookupA l k1 := by
  by_cases hk : k = k1
  · simp [insertA, lookupA, hk]
  · simp [insertA, lookupA, hk, lookupA_eraseA]

theorem lookupA_updateA {β : Type} (l : List (Nat × β)) (k k1 : Nat) (f : β → β) :
    lookupA (updateA l k f) k1 =
      if k = k1 then (lookupA l k).map f else lookupA l k1 := by
  induction l with
  | nil => by_cases h : k = k1 <;> simp [lookupA, updateA, h]
  | cons p rest ih =>
    obtain ⟨a, b⟩ := p
    by_cases h2 : a = k
    · subst h2
      by_cases h : a = k1
      · subst h
        simp [lookupA, updateA]
      · simp [lookupA, updateA, h, ih]
    · by_cases h3 : a = k1
      · subst h3
        have h : ¬ k = a := fun hkk => h2 hkk.symm
        simp [lookupA, updateA, h2, h]
      · simp [lookupA, updateA, h2, h3, ih]

/-- `Job` from `process.rs`. `termios: RefCell<Option<Termios>>` becomes
a plain `Option Termios` field; the shared `Rc` mutation is modelled by
updating the registry entry (see the module comment). -/
structure Job : Type where
  id : JobId
  pgid : Pid
  cmd : String
  processes : List Pid
  termios : Option Termios
  deriving DecidableEq, Repr

/-- `Job::new`. -/
def Job.new (id : JobId) (pgid : Pid) (cmd : String) (processes : List Pid) : Job :=
  { id := id, pgid := pgid, cmd := cmd, processes := processes, termios := none }

/-- The in-process builtins of `builtins/mod.rs` (`exit.rs` and `cd.rs`). -/
inductive Builtin : Type where
  | exitB : Builtin
  | cdB : Builtin
  deriving DecidableEq, Repr

/-- `builtins::builtin_command`. -/
def builtin_command (name : String) : Option Builtin :=
  match name with
  | "exit" => some Builtin.exitB
  | "cd" => some Builtin.cdB
  | _ => none

/-- `Shell` from `shell.rs`. The `PathTable` lives in `path.rs`, which is
not in `src/`; modelled from the spec (§6) as a map
`lookup(name) -> Option<absolute path>`. -/
structure Shell : Type where
  last_status : Int
  interactive : Bool
  path_table : List (String × String)
  shell_termios : Option Termios
  states : List (Pid × ProcessState)
  shell_pgid : Pid
  jobs : List (JobId × Job)
  last_fore_job : Option JobId
  pid_job_mapping : List (Pid × JobId)
  deriving DecidableEq, Repr

/-- `Shell::get_process_state`. -/
def Shell.get_process_state (s : Shell) (pid : Pid) : Option ProcessState :=
  lookupA s.states pid

/-- `Shell::set_process_state`. -/
def Shell.set_process_state (s : Shell) (pid : Pid) (state : ProcessState) : Shell :=
  { s with states := insertA s.states pid state }

/-- `Shell::set_last_status`. -/
def Shell.set_last_status (s : Shell) (status : Int) : Shell :=
  { s with last_status := status }

/-- The scanning loop of `Shell::alloc_job_id`, with explicit fuel: the
source increments `id` while `jobs.contains_key(&JobId::new(id))`. A fuel
of `jobs.length + 1` is enough to reach a free id (pigeonhole). -/
def alloc_job_id_aux (jobs : List (JobId × Job)) : Nat → Nat → Nat
  | 0, id => id
  | fuel + 1, id =>
    if (lookupA jobs id).isSome then alloc_job_id_aux jobs fuel (id + 1) else id

/-- `Shell::alloc_job_id`: scan `1, 2, 3, …` for the first free id. -/
def Shell.alloc_job_id (s : Shell) : JobId :=
  alloc_job_id_aux s.jobs (s.jobs.length + 1) 1

/-- The body of the `for child in childs` loop of `Shell::create_job`:
insert the child as `Running` into `states` and map it to the job id in
`pid_job_mapping`. -/
def register_child (id : JobId) (acc : Shell) (c : Pid) : Shell :=
  { acc.set_process_state c ProcessState.Running with
      pid_job_mapping :=
        insertA (acc.set_process_state c ProcessState.Running).pid_job_mapping c id }

/-- `Shell::create_job`: allocate an id, insert every child as `Running`
into `states` and map it to the job in `pid_job_mapping`, then register
the job. Returns the job together with the updated shell. -/
def Shell.create_job (s : Shell) (name : String) (pgid : Pid) (childs : List Pid) :
    Job × Shell :=
  let id := s.alloc_job_id
  let job := Job.new id pgid name childs
  let s1 := childs.foldl (register_child id) s
  (job, { s1 with jobs := insertA s1.jobs id job })

/-- `Job::completed` (`process.rs`): every process of the job is in a
`Completed` state. The source unwraps the looked-up state and would panic
on a missing entry; every job built by `create_job` has an entry for each
of its pids, so here a missing entry simply counts as not completed. -/
def Job.completed (job : Job) (s : Shell) : Bool :=
  job.processes.all fun pid =>
    match s.get_process_state pid with
    | some (ProcessState.Completed _) => true
    | _ => false

/-- `Job::stopped` (`process.rs`): every process of the job is in a
`Stopped` state (same convention for missing entries as `Job.completed`). -/
def Job.stopped (job : Job) (s : Shell) : Bool :=
  job.processes.all fun pid =>
    match s.get_process_state pid with
    | some (ProcessState.Stopped _) => true
    | _ => false

/-- `str::starts_with` on the underlying character list (so that
concrete instances reduce inside the kernel). -/
def startsWithL : List Char → List Char → Bool
  | _, [] => true
  | [], _ :: _ => false
  | c :: cs, p :: ps => c = p && startsWithL cs ps

/-- `str::starts_with`. -/
def starts_with (s pre : String) : Bool :=
  startsWithL s.toList pre.toList

/-- Interior-NUL test on a character list. -/
def contains_nul : List Char → Bool
  | [] => false
  | c :: cs => c = Char.ofNat 0 || contains_nul cs

/-- `CString::new`: fails on an interior NUL byte. -/
def cstring_new (s : String) : Option String :=
  if contains_nul s.toList then none else some s

/-- Convert a whole argv to C strings (the `for arg in argv` loop of
`run_external_command`); the first failure propagates via the `?`. -/
def cstring_list : List String → Option (List String)
  | [] => some []
  | a :: rest =>
    match cstring_new a with
    | none => none
    | some c =>
      match cstring_list rest with
      | none => none
      | some cs => some (c :: cs)

/-- The span loop of `expand_word_into_vec` (`expand.rs`). Only
`Span::Literal` occurs in this repository; `Span::LiteralChars` hits
`unreachable!`. With `expand = false` and a single fragment, each literal
is pushed onto `current_word`; nothing is flushed inside the loop.
Returns the `words` accumulator and the final `current_word`. -/
def expand_spans_loop : List Span → List String → List String →
    Res (List String × List String)
  | [], words, current_word => Res.ok (words, current_word)
  | Span.LiteralChars _ :: _, _, _ => Res.fatal
  | Span.Literal s :: rest, words, current_word =>
    expand_spans_loop rest words (current_word ++ [s])

/-- `expand_word_into_vec` (`expand.rs`): after the span loop, flush a
non-empty `current_word`, and yield `[""]` when no word was produced. -/
def expand_word_into_vec (word : Word) : Res (List String) :=
  match expand_spans_loop word.spans [] [] with
  | Res.ok (words, current_word) =>
    let words :=
      if current_word.isEmpty then words else words ++ [String.join current_word]
    Res.ok (if words.isEmpty then [String.mk []] else words)
  | Res.err => Res.err
  | Res.fatal => Res.fatal
  | Res.exited c => Res.exited c
  | Res.blocked => Res.blocked

/-- `expand_words` (`expand.rs`): expand each word and concatenate. -/
def expand_words : List Word → Res (List String)
  | [] => Res.ok []
  | w :: rest =>
    match expand_word_into_vec w with
    | Res.ok ws =>
      match expand_words rest with
      | Res.ok evaluated => Res.ok (ws ++ evaluated)
      | Res.err => Res.err
      | Res.fatal => Res.fatal
      | Res.exited c => Res.exited c
      | Res.blocked => Res.blocked
    | Res.err => Res.err
    | Res.fatal => Res.fatal
    | Res.exited c => Res.exited c
    | Res.blocked => Res.blocked

/-- Run one builtin (`builtins/exit.rs`, `builtins/cd.rs`). `exit` calls
`std::process::exit(0)`. Modelled from the spec: `cd.rs` is not in
`src/`; §4.3 permits `cd` as a no-op stub returning an `ExitedWith`
status, modelled as `ExitedWith 0` with the shell untouched. -/
def Builtin.run (b : Builtin) (s : Shell) : Res (ExitStatus × Shell) :=
  match b with
  | Builtin.exitB => Res.exited 0
  | Builtin.cdB => Res.ok (ExitStatus.ExitedWith 0, s)

/-- `smash_err!` (macro of the missing `macros.rs`). Modelled from the
spec: §6 routes all these diagnostics to standard error. -/
def smash_err (os : OS) (msg : String) : OS :=
  { os with stderr := os.stderr ++ [msg] }

/-- `tcsetpgrp(0, pgid)` as performed by `set_terminal_process_group`. -/
def set_terminal_process_group (os : OS) (pgid : Pid) : OS :=
  { os with
      terminal := { os.terminal with fgPgrp := pgid },
      trace := os.trace ++ [TermOp.setPgrp pgid] }

/-- `tcsetattr(0, TCSADRAIN, termios)` as performed by
`restore_terminal_attrs`. -/
def restore_terminal_attrs (os : OS) (termios : Termios) : OS :=
  { os with
      terminal := { os.terminal with attrs := termios },
      trace := os.trace ++ [TermOp.setAttrs termios] }

/-- `tcgetattr(0)`: read the attributes (and log the call). -/
def tcgetattr_os (os : OS) : Termios × OS :=
  (os.terminal.attrs, { os with trace := os.trace ++ [TermOp.getAttrs] })

/-- The tail of `run_external_command` (`process.rs`) once `argv0` has
resolved: convert the argv to C strings (a `CString::new` failure travels
up as an `anyhow` error, `Res.err`), fork (a `fork` failure hits
`expect`, `Res.fatal`, modelled as an exhausted fork oracle), and return
`Running(child)` in the parent. The child side (process-group setup,
terminal hand-off, signal resets, `execv`) runs in the forked process and
touches no shell state. -/
def run_external_spawn (s : Shell) (argv : List String) (os : OS) :
    Res (ExitStatus × Shell × OS) :=
  match cstring_list argv with
  | none => Res.err
  | some _ =>
    match os.forks with
    | [] => Res.fatal
    | child :: forks1 =>
      Res.ok (ExitStatus.Running child, s, { os with forks := forks1 })

/-- `run_external_command` (`process.rs`), parent side. Resolve
`argv[0]`: as-is when it starts with `/` or `./`, else through the PATH
table — a miss prints the diagnostic and returns `ExitedWith 1` without
forking. On success continue with `run_external_spawn`. -/
def run_external_command (_ctx : Context) (s : Shell) (argv : List String)
    (os : OS) : Res (ExitStatus × Shell × OS) :=
  match argv with
  | [] => Res.fatal
  | a0 :: _ =>
    if starts_with a0 "/" || starts_with a0 "./" then
      match cstring_new a0 with
      | some _ => run_external_spawn s argv os
      | none => Res.err
    else
      match lookupS s.path_table a0 with
      | some path =>
        match cstring_new path with
        | some _ => run_external_spawn s argv os
        | none => Res.err
      | none =>
        Res.ok (ExitStatus.ExitedWith 1, s,
          smash_err os ("command not found \x60" ++ a0 ++ "\x60"))

/-- `run_internal_command` (`process.rs`): look the name up in the
builtin table; absence is the `NotFound` error the caller uses to fall
through to external execution (represented here by the `none` of the
outer `Option`). -/
def run_internal_command (s : Shell) (argv : List String) :
    Option (Res (ExitStatus × Shell)) :=
  match argv with
  | [] => some Res.fatal
  | a0 :: _ =>
    match builtin_command a0 with
    | none => none
    | some b => some (b.run s)

/-- `wait_for_any_process` (`process.rs`): translate one kernel wait
outcome into a state transition. Returns `none` for the panicking
`status =>` arm, and otherwise the `Option<Pid>` result with the updated
shell. The `no_block` flag only selects the `WNOHANG` option of the
kernel call and does not alter the translation. -/
def wait_for_any_process (s : Shell) (_no_block : Bool) (ev : WaitEvent) :
    Option (Option Pid × Shell) :=
  match ev with
  | WaitEvent.exited pid status =>
    some (some pid, s.set_process_state pid (ProcessState.Completed status))
  | WaitEvent.signaled pid =>
    some (some pid, s.set_process_state pid (ProcessState.Completed (-1)))
  | WaitEvent.stopped pid =>
    some (some pid, s.set_process_state pid (ProcessState.Stopped pid))
  | WaitEvent.stillAlive => some (none, s)
  | WaitEvent.echild => some (none, s)
  | WaitEvent.other => none

/-- The `loop` of `wait_for_job`: break once the job is completed or
stopped, otherwise reap one event with `wait_for_any_process(shell,
false)` and repeat. Returns the shell at loop exit together with the
unconsumed events; `blocked` models the blocking `waitpid` when the
oracle has no further events. -/
def wait_loop (job : Job) (evs : List WaitEvent) (s : Shell) :
    Res (Shell × List WaitEvent) :=
  if job.completed s || job.stopped s then Res.ok (s, evs)
  else
    match evs with
    | [] => Res.blocked
    | ev :: rest =>
      match wait_for_any_process s false ev with
      | some (_, s1) => wait_loop job rest s1
      | none => Res.fatal

/-- `destroy_job` (`process.rs`): remove the job from the registry (the
`unwrap` panics when it is absent) and clear `last_fore_job` when it
points at this job's id. -/
def destroy_job (s : Shell) (job : Job) : Option Shell :=
  match lookupA s.jobs job.id with
  | none => none
  | some _ =>
    let s1 := { s with jobs := eraseA s.jobs job.id }
    match s1.last_fore_job with
    | some lastId =>
      if job.id = lastId then some { s1 with last_fore_job := none } else some s1
    | none => some s1

/-- The message `smash_err!("[{}] Stopped: {}", job.id, job.cmd)`
formats. -/
def stopped_message (job : Job) : String :=
  "[" ++ toString job.id ++ "] Stopped: " ++ job.cmd

/-- The tail of `wait_for_job` (`process.rs`) after its loop has exited
with shell `s1`: read the state of the last process (`unwrap`ping both
the empty-iterator and the missing-state cases); on `Completed` destroy
the job, on `Stopped` print the message; anything else is
`unreachable!`. -/
def wait_for_job_finish (job : Job) (s1 : Shell) (os : OS) :
    Res (ProcessState × Shell × OS) :=
  match job.processes.getLast? with
  | none => Res.fatal
  | some lastPid =>
    match s1.get_process_state lastPid with
    | some (ProcessState.Completed c) =>
      match destroy_job s1 job with
      | none => Res.fatal
      | some s2 => Res.ok (ProcessState.Completed c, s2, os)
    | some (ProcessState.Stopped p) =>
      Res.ok (ProcessState.Stopped p, s1, smash_err os (stopped_message job))
    | _ => Res.fatal

/-- `wait_for_job` (`process.rs`): loop until the job is completed or
stopped, then settle the last process's state
(`wait_for_job_finish`). -/
def wait_for_job (s : Shell) (job : Job) (os : OS) :
    Res (ProcessState × Shell × OS) :=
  match wait_loop job os.events s with
  | Res.ok (s1, evs1) => wait_for_job_finish job s1 { os with events := evs1 }
  | Res.err => Res.err
  | Res.fatal => Res.fatal
  | Res.exited c => Res.exited c
  | Res.blocked => Res.blocked

/-- `run_in_foreground` (`process.rs`): hand the terminal to the job's
process group, wait for the job, snapshot the terminal attributes into
the job's `termios` cell (visible through the registry when the job is
still registered), hand the terminal back to the shell and restore the
shell's attributes (`unwrap`ping `shell_termios`). -/
def run_in_foreground (s : Shell) (job : Job) (os : OS) :
    Res (ProcessState × Shell × OS) :=
  match wait_for_job s job (set_terminal_process_group os job.pgid) with
  | Res.ok (status, s1, os2) =>
    let ao := tcgetattr_os os2
    let s2 : Shell := { s1 with
      jobs := updateA s1.jobs job.id (fun j => { j with termios := some ao.1 }) }
    match s2.shell_termios with
    | none => Res.fatal
    | some t =>
      Res.ok (status, s2,
        restore_terminal_attrs (set_terminal_process_group ao.2 s2.shell_pgid) t)
  | Res.err => Res.err
  | Res.fatal => Res.fatal
  | Res.exited c => Res.exited c
  | Res.blocked => Res.blocked

/-- `run_simple_command` (`eval.rs`): expand the argv, return
`ExitedWith 0` when the expansion is empty, try the builtin table (a
`NotFound` falls through), otherwise run the external command. -/
def run_simple_command (ctx : Context) (s : Shell) (argv : List Word) (os : OS) :
    Res (ExitStatus × Shell × OS) :=
  match expand_words argv with
  | Res.ok args =>
    match args with
    | [] => Res.ok (ExitStatus.ExitedWith 0, s, os)
    | a0 :: _ =>
      match builtin_command a0 with
      | some b =>
        match b.run s with
        | Res.ok (status, s1) => Res.ok (status, s1, os)
        | Res.err => Res.err
        | Res.fatal => Res.fatal
        | Res.exited c => Res.exited c
        | Res.blocked => Res.blocked
      | none => run_external_command ctx s args os
  | Res.err => Res.err
  | Res.fatal => Res.fatal
  | Res.exited c => Res.exited c
  | Res.blocked => Res.blocked

/-- `run_command` (`eval.rs`): dispatch on the command variant (only
`SimpleCommand` exists). -/
def run_command (s : Shell) (command : Command) (ctx : Context) (os : OS) :
    Res (ExitStatus × Shell × OS) :=
  match command with
  | Command.SimpleCommand argv => run_simple_command ctx s argv os

/-- The `while let Some(command) = iter.next()` loop of `run_pipeline`
(`eval.rs`). The pipe created for every non-last command and the
parent-side close of its write end are kernel-fd operations with no
shell-visible state; the parent-side `setpgid(pid, pgid)` backstop in
interactive mode likewise only touches kernel process-group state.
Carries `last_result`, the `childs` list and the pipeline's `pgid`. On a
`Running(pid)` launch the first pid becomes the pgid and the pid is
appended to `childs`; an `Err` from `run_command` hits
`unimplemented!`. -/
def run_pipeline_loop (background : Bool) :
    List Command → Shell → OS → Option ExitStatus → List Pid → Option Pid →
    Res (Option ExitStatus × List Pid × Option Pid × Shell × OS)
  | [], s, os, last_result, childs, pgid => Res.ok (last_result, childs, pgid, s, os)
  | command :: rest, s, os, _last_result, childs, pgid =>
    match run_command s command
        { pgid := pgid, background := background, interactive := s.interactive } os with
    | Res.ok (ExitStatus.Running pid, s1, os1) =>
      let pgid1 := if pgid.isNone then some pid else pgid
      run_pipeline_loop background rest s1 os1
        (some (ExitStatus.Running pid)) (childs ++ [pid]) pgid1
    | Res.ok (ExitStatus.ExitedWith status, s1, os1) =>
      run_pipeline_loop background rest s1 os1
        (some (ExitStatus.ExitedWith status)) childs pgid
    | Res.err => Res.fatal
    | Res.fatal => Res.fatal
    | Res.exited c => Res.exited c
    | Res.blocked => Res.blocked

/-- `run_pipeline` (`eval.rs`): run the commands, then settle the last
result. A final `ExitedWith` records `last_status` and returns it. A
final `Running` creates the job (`pgid.unwrap()`) and waits — blocking
reap when non-interactive, the foreground path when interactive — mapping
`Completed` to `ExitedWith` (recording `last_status` only on the
non-interactive path) and `Stopped` to `Running(pgid)`; any other state
is `unreachable!`. No commands at all yields `ExitedWith 0`. -/
def run_pipeline (s : Shell) (code : String) (pipeline : Pipeline)
    (background : Bool) (os : OS) : Res (ExitStatus × Shell × OS) :=
  match run_pipeline_loop background pipeline.commands s os none [] none with
  | Res.ok (last_result, childs, pgid, s1, os1) =>
    match last_result with
    | some (ExitStatus.ExitedWith status) =>
      Res.ok (ExitStatus.ExitedWith status, s1.set_last_status status, os1)
    | some (ExitStatus.Running _) =>
      match pgid with
      | none => Res.fatal
      | some pg =>
        let js := s1.create_job code pg childs
        if !s1.interactive then
          match wait_for_job js.2 js.1 os1 with
          | Res.ok (ProcessState.Completed status, s2, os2) =>
            Res.ok (ExitStatus.ExitedWith status, s2.set_last_status status, os2)
          | Res.ok (ProcessState.Stopped _, s2, os2) =>
            Res.ok (ExitStatus.Running pg, s2, os2)
          | Res.ok (ProcessState.Running, _, _) => Res.fatal
          | Res.err => Res.err
          | Res.fatal => Res.fatal
          | Res.exited c => Res.exited c
          | Res.blocked => Res.blocked
        else
          match run_in_foreground js.2 js.1 os1 with
          | Res.ok (ProcessState.Completed status, s2, os2) =>
            Res.ok (ExitStatus.ExitedWith status, s2, os2)
          | Res.ok (ProcessState.Stopped _, s2, os2) =>
            Res.ok (ExitStatus.Running pg, s2, os2)
          | Res.ok (ProcessState.Running, _, _) => Res.fatal
          | Res.err => Res.err
          | Res.fatal => Res.fatal
          | Res.exited c => Res.exited c
          | Res.blocked => Res.blocked
    | none => Res.ok (ExitStatus.ExitedWith 0, s1, os1)
  | Res.err => Res.err
  | Res.fatal => Res.fatal
  | Res.exited c => Res.exited c
  | Res.blocked => Res.blocked

/-- The gate of `run_terms` (`eval.rs`): the `match (last_status,
&pipeline.run_if)` whose fall-through arm is `continue`. The arms are
tried in order, exactly as in the source: `(ExitedWith(0), Success)`,
`(ExitedWith(_), Failure)`, `(_, Always)`. -/
def gate_matches : ExitStatus → RunIf → Bool
  | ExitStatus.ExitedWith 0, RunIf.Success => true
  | ExitStatus.ExitedWith _, RunIf.Failure => true
  | _, RunIf.Always => true
  | _, _ => false

/-- The inner `for pipeline in &term.pipelines` loop of `run_terms`. -/
def run_pipelines_loop (code : String) (background : Bool) :
    List Pipeline → ExitStatus → Shell → OS → Res (ExitStatus × Shell × OS)
  | [], last_status, s, os => Res.ok (last_status, s, os)
  | pipeline :: rest, last_status, s, os =>
    if gate_matches last_status pipeline.run_if then
      match run_pipeline s code pipeline background os with
      | Res.ok (status, s1, os1) => run_pipelines_loop code background rest status s1 os1
      | Res.err => Res.err
      | Res.fatal => Res.fatal
      | Res.exited c => Res.exited c
      | Res.blocked => Res.blocked
    else
      run_pipelines_loop code background rest last_status s os

/-- The outer `for term in terms` loop of `run_terms`. -/
def run_terms_loop : List Term → ExitStatus → Shell → OS →
    Res (ExitStatus × Shell × OS)
  | [], last_status, s, os => Res.ok (last_status, s, os)
  | term :: rest, last_status, s, os =>
    match run_pipelines_loop term.code term.background term.pipelines last_status s os with
    | Res.ok (status, s1, os1) => run_terms_loop rest status s1 os1
    | Res.err => Res.err
    | Res.fatal => Res.fatal
    | Res.exited c => Res.exited c
    | Res.blocked => Res.blocked

/-- `run_terms` (`eval.rs`): iterate the terms and their pipelines with
`last_status` starting at `ExitedWith 0`. -/
def run_terms (s : Shell) (terms : List Term) (os : OS) :
    Res (ExitStatus × Shell × OS) :=
  run_terms_loop terms (ExitStatus.ExitedWith 0) s os

/-- `eval` (`eval.rs`). -/
def eval (s : Shell) (ast : Ast) (os : OS) : Res (ExitStatus × Shell × OS) :=
  run_terms s ast.terms os

/-! ## C3: the sequencer's status is the last run pipeline's status -/

/-- The spec's "status of the most recently **run** pipeline", with exit
code 0 before any pipeline has run. -/
def last_run_status (ran : List ExitStatus) : ExitStatus :=
  ran.getLastD (ExitStatus.ExitedWith 0)

/-- Follows the spec's words (§4.1, property P1), for comparison with
`run_terms`: iterate the pipelines keeping the list `ran` of statuses of
the pipelines that actually ran; the gate consults only
`last_run_status ran`, so a skipped pipeline contributes nothing. -/
def run_pipelines_spec (code : String) (background : Bool) :
    List Pipeline → List ExitStatus → Shell → OS →
    Res (List ExitStatus × Shell × OS)
  | [], ran, s, os => Res.ok (ran, s, os)
  | pipeline :: rest, ran, s, os =>
    if gate_matches (last_run_status ran) pipeline.run_if then
      match run_pipeline s code pipeline background os with
      | Res.ok (status, s1, os1) =>
        run_pipelines_spec code background rest (ran ++ [status]) s1 os1
      | Res.err => Res.err
      | Res.fatal => Res.fatal
      | Res.exited c => Res.exited c
      | Res.blocked => Res.blocked
    else
      run_pipelines_spec code background rest ran s os

/-- The term-level loop of the spec-side sequencer. -/
def run_terms_spec_loop : List Term → List ExitStatus → Shell → OS →
    Res (List ExitStatus × Shell × OS)
  | [], ran, s, os => Res.ok (ran, s, os)
  | term :: rest, ran, s, os =>
    match run_pipelines_spec term.code term.background term.pipelines ran s os with
    | Res.ok (ran1, s1, os1) => run_terms_spec_loop rest ran1 s1 os1
    | Res.err => Res.err
    | Res.fatal => Res.fatal
    | Res.exited c => Res.exited c
    | Res.blocked => Res.blocked

/-- Follows the spec's words (§4.1): run the terms gating each pipeline
by the status of the most recently run pipeline, and return the status
of the last pipeline that actually ran, or exit code 0 if no pipeline
ran. -/
def run_terms_spec (s : Shell) (terms : List Term) (os : OS) :
    Res (ExitStatus × Shell × OS) :=
  match run_terms_spec_loop terms [] s os with
  | Res.ok (ran, s1, os1) => Res.ok (last_run_status ran, s1, os1)
  | Res.err => Res.err
  | Res.fatal => Res.fatal
  | Res.exited c => Res.exited c
  | Res.blocked => Res.blocked

theorem last_run_status_snoc (ran : List ExitStatus) (st : ExitStatus) :
    last_run_status (ran ++ [st]) = st := by
  simp [last_run_status, List.getLastD_eq_getLast?]

theorem run_pipelines_loop_eq_spec (code : String) (bg : Bool) :
    ∀ (pls : List Pipeline) (ran : List ExitStatus) (s : Shell) (os : OS),
      run_pipelines_loop code bg pls (last_run_status ran) s os =
        match run_pipelines_spec code bg pls ran s os with
        | Res.ok (ran1, s1, os1) => Res.ok (last_run_status ran1, s1, os1)
        | Res.err => Res.err
        | Res.fatal => Res.fatal
        | Res.exited c => Res.exited c
        | Res.blocked => Res.blocked := by
  intro pls
  induction pls with
  | nil => intro ran s os; rfl
  | cons pipeline rest ih =>
    intro ran s os
    rw [run_pipelines_loop, run_pipelines_spec]
    by_cases hg : gate_matches (last_run_status ran) pipeline.run_if
    · rw [if_pos hg, if_pos hg]
      cases hr : run_pipeline s code pipeline bg os with
      | ok v =>
        obtain ⟨status, s1, os1⟩ := v
        have := ih (ran ++ [status]) s1 os1
        rw [last_run_status_snoc] at this
        exact this
      | err => rfl
      | fatal => rfl
      | exited c => rfl
      | blocked => rfl
    · rw [if_neg hg, if_neg hg]
      exact ih ran s os

theorem run_terms_loop_eq_spec :
    ∀ (terms : List Term) (ran : List ExitStatus) (s : Shell) (os : OS),
      run_terms_loop terms (last_run_status ran) s os =
        match run_terms_spec_loop terms ran s os with
        | Res.ok (ran1, s1, os1) => Res.ok (last_run_status ran1, s1, os1)
        | Res.err => Res.err
        | Res.fatal => Res.fatal
        | Res.exited c => Res.exited c
        | Res.blocked => Res.blocked := by
  intro terms
  induction terms with
  | nil => intro ran s os; rfl
  | cons term rest ih =>
    intro ran s os
    rw [run_terms_loop, run_terms_spec_loop]
    rw [run_pipelines_loop_eq_spec]
    cases hr : run_pipelines_spec term.code term.background term.pipelines ran s os with
    | ok v =>
      obtain ⟨ran1, s1, os1⟩ := v
      exact ih ran1 s1 os1
    | err => rfl
    | fatal => rfl
    | exited c => rfl
    | blocked => rfl

/-- C3: `run_terms` coincides with the spec-side sequencer
`run_terms_spec`, whose gate consults only the status of the most
recently run pipeline (skipped pipelines contribute nothing to gating)
and whose result is the status of the last pipeline that actually ran,
or exit code 0 if no pipeline ran. -/
theorem run_terms_eq_spec (s : Shell) (terms : List Term) (os : OS) :
    run_terms s terms os = run_terms_spec s terms os := by
  have h := run_terms_loop_eq_spec terms [] s os
  rw [run_terms, run_terms_spec]
  exact h

/-! ## General lemmas about the state operations -/

theorem get_set_process_state (s : Shell) (pid q : Pid) (st : ProcessState) :
    (s.set_process_state pid st).get_process_state q =
      if pid = q then some st else s.get_process_state q := by
  simp [Shell.get_process_state, Shell.set_process_state, lookupA_insertA]

theorem lookupA_isSome_mem_keys {β : Type} (l : List (Nat × β)) (k : Nat) :
    (lookupA l k).isSome = true → k ∈ l.map Prod.fst := by
  induction l with
  | nil => simp [lookupA]
  | cons p rest ih =>
    obtain ⟨a, b⟩ := p
    by_cases h : a = k
    · subst h
      simp
    · intro hs
      rw [lookupA, if_neg h] at hs
      simpa using Or.inr (by simpa using ih hs)

/-! ## C7: job-id allocation returns the smallest free positive id -/

theorem alloc_job_id_aux_spec (jobs : List (JobId × Job)) :
    ∀ fuel start, (∃ k, start ≤ k ∧ k < start + fuel ∧ lookupA jobs k = none) →
      start ≤ alloc_job_id_aux jobs fuel start ∧
      lookupA jobs (alloc_job_id_aux jobs fuel start) = none ∧
      ∀ m, start ≤ m → m < alloc_job_id_aux jobs fuel start →
        (lookupA jobs m).isSome = true := by
  intro fuel
  induction fuel with
  | zero =>
    intro start h
    obtain ⟨k, hk1, hk2, _⟩ := h
    omega
  | succ fuel ih =>
    intro start h
    obtain ⟨k, hk1, hk2, hk3⟩ := h
    by_cases hocc : (lookupA jobs start).isSome = true
    · have hne : k ≠ start := by
        intro he
        rw [← he, hk3] at hocc
        simp at hocc
      have hrec := ih (start + 1) ⟨k, by omega, by omega, hk3⟩
      have heq : alloc_job_id_aux jobs (fuel + 1) start =
          alloc_job_id_aux jobs fuel (start + 1) := by
        rw [alloc_job_id_aux, if_pos hocc]
      refine ⟨by omega, by rw [heq]; exact hrec.2.1, ?_⟩
      intro m hm1 hm2
      rcases Nat.eq_or_lt_of_le hm1 with hm | hm
      · rw [← hm]
        exact hocc
      · exact hrec.2.2 m (by omega) (by rw [← heq]; exact hm2)
    · have heq : alloc_job_id_aux jobs (fuel + 1) start = start := by
        rw [alloc_job_id_aux, if_neg hocc]
      refine ⟨by omega, ?_, ?_⟩
      · rw [heq]
        cases hl : lookupA jobs start with
        | none => rfl
        | some v => rw [hl] at hocc; simp at hocc
      · intro m hm1 hm2
        rw [heq] at hm2
        omega

theorem exists_free_job_id (jobs : List (JobId × Job)) :
    ∃ k, 1 ≤ k ∧ k < 1 + (jobs.length + 1) ∧ lookupA jobs k = none := by
  by_contra hcon
  push_neg at hcon
  have hsub : List.range' 1 (jobs.length + 1) ⊆ jobs.map Prod.fst := by
    intro k hk
    rw [List.mem_range'] at hk
    obtain ⟨i, hi, hki⟩ := hk
    apply lookupA_isSome_mem_keys
    have hne := hcon k (by omega) (by omega)
    cases hl : lookupA jobs k with
    | none => exact absurd hl hne
    | some v => rfl
  have hnd : (List.range' 1 (jobs.length + 1)).Nodup := List.nodup_range' ..
  have hlen := (List.subperm_of_subset hnd hsub).length_le
  rw [List.length_range', List.length_map] at hlen
  omega

/-- C7: `alloc_job_id` returns the smallest positive integer not
currently used as a key of the `jobs` registry, whatever the current
registry contents (hence after any sequence of creations and
destructions). -/
theorem alloc_job_id_smallest_free (s : Shell) :
    1 ≤ s.alloc_job_id ∧ lookupA s.jobs s.alloc_job_id = none ∧
      ∀ m, 1 ≤ m → m < s.alloc_job_id → (lookupA s.jobs m).isSome = true :=
  alloc_job_id_aux_spec s.jobs (s.jobs.length + 1) 1 (exists_free_job_id s.jobs)

/-! ## Effects of launching one command -/

/-- A command that resolves to a spawned external process under shell
`s`: its expansion succeeds and is non-empty, its name is no builtin,
and `argv[0]` resolves (absolute or `./` path, or a PATH-table hit).
This is the condition under which `run_simple_command` reaches the fork
of `run_external_command`, read off its control flow. -/
def spawns_external (s : Shell) (cmd : Command) : Bool :=
  match cmd with
  | Command.SimpleCommand argv =>
    match expand_words argv with
    | Res.ok (a0 :: _) =>
      (builtin_command a0).isNone &&
        (starts_with a0 "/" || starts_with a0 "./" ||
          (lookupS s.path_table a0).isSome)
    | _ => false

theorem run_external_spawn_ok (s : Shell) (argv : List String) (os : OS)
    (v : ExitStatus) (s1 : Shell) (os1 : OS)
    (h : run_external_spawn s argv os = Res.ok (v, s1, os1)) :
    s1 = s ∧ ∃ pid, v = ExitStatus.Running pid ∧
      os.forks = pid :: os1.forks ∧ os1.events = os.events ∧
      os1.terminal = os.terminal ∧ os1.trace = os.trace ∧
      os1.stderr = os.stderr := by
  rw [run_external_spawn] at h
  cases hcs : cstring_list argv with
  | none =>
    rw [hcs] at h
    have h2 : (Res.err : Res (ExitStatus × Shell × OS)) = Res.ok (v, s1, os1) := h
    cases h2
  | some cs =>
    rw [hcs] at h
    cases hf : os.forks with
    | nil =>
      rw [hf] at h
      have h2 : (Res.fatal : Res (ExitStatus × Shell × OS)) = Res.ok (v, s1, os1) := h
      cases h2
    | cons child forks1 =>
      rw [hf] at h
      have h2 : Res.ok (ExitStatus.Running child, s, { os with forks := forks1 }) =
          Res.ok (v, s1, os1) := h
      injection h2 with h3
      injection h3 with hv h4
      injection h4 with hs hos
      rw [← hv, ← hs, ← hos]
      exact ⟨rfl, child, rfl, rfl, rfl, rfl, rfl, rfl⟩

theorem run_external_command_resolved (ctx : Context) (s : Shell) (a0 : String)
    (rest : List String) (os : OS) (v : ExitStatus) (s1 : Shell) (os1 : OS)
    (hres : (starts_with a0 "/" || starts_with a0 "./" ||
      (lookupS s.path_table a0).isSome) = true)
    (h : run_external_command ctx s (a0 :: rest) os = Res.ok (v, s1, os1)) :
    s1 = s ∧ ∃ pid, v = ExitStatus.Running pid ∧
      os.forks = pid :: os1.forks ∧ os1.events = os.events ∧
      os1.terminal = os.terminal ∧ os1.trace = os.trace ∧
      os1.stderr = os.stderr := by
  rw [run_external_command] at h
  by_cases hsw : (starts_with a0 "/" || starts_with a0 "./") = true
  · rw [if_pos hsw] at h
    cases hc : cstring_new a0 with
    | none =>
      rw [hc] at h
      have h2 : (Res.err : Res (ExitStatus × Shell × OS)) = Res.ok (v, s1, os1) := h
      cases h2
    | some c =>
      rw [hc] at h
      exact run_external_spawn_ok s (a0 :: rest) os v s1 os1 h
  · rw [if_neg hsw] at h
    have hlk : (lookupS s.path_table a0).isSome = true := by
      rcases Bool.or_eq_true_iff.mp hres with hor | hlk
      · exact absurd hor hsw
      · exact hlk
    cases hl : lookupS s.path_table a0 with
    | none => rw [hl] at hlk; cases hlk
    | some path =>
      rw [hl] at h
      have h2 : (match cstring_new path with
          | some _ => run_external_spawn s (a0 :: rest) os
          | none => Res.err) = Res.ok (v, s1, os1) := h
      cases hc : cstring_new path with
      | none =>
        rw [hc] at h2
        have h3 : (Res.err : Res (ExitStatus × Shell × OS)) = Res.ok (v, s1, os1) := h2
        cases h3
      | some c =>
        rw [hc] at h2
        exact run_external_spawn_ok s (a0 :: rest) os v s1 os1 h2

/-- Launching a command that `spawns_external` either fails (no shell
change is observable then anyway) or returns `Running(pid)` with the
shell untouched and one pid consumed from the fork oracle. -/
theorem run_command_spawns (s : Shell) (cmd : Command) (ctx : Context)
    (os : OS) (v : ExitStatus) (s1 : Shell) (os1 : OS)
    (hx : spawns_external s cmd = true)
    (h : run_command s cmd ctx os = Res.ok (v, s1, os1)) :
    s1 = s ∧ ∃ pid, v = ExitStatus.Running pid ∧
      os.forks = pid :: os1.forks ∧ os1.events = os.events ∧
      os1.terminal = os.terminal ∧ os1.trace = os.trace ∧
      os1.stderr = os.stderr := by
  obtain ⟨argv⟩ := cmd
  rw [spawns_external] at hx
  rw [run_command, run_simple_command] at h
  cases he : expand_words argv with
  | ok args =>
    rw [he] at hx h
    cases args with
    | nil =>
      have hx2 : false = true := hx
      cases hx2
    | cons a0 args1 =>
      have hx2 : ((builtin_command a0).isNone &&
          (starts_with a0 "/" || starts_with a0 "./" ||
            (lookupS s.path_table a0).isSome)) = true := hx
      have h3 : (match builtin_command a0 with
          | some b =>
            match b.run s with
            | Res.ok (status, s2) => Res.ok (status, s2, os)
            | Res.err => Res.err
            | Res.fatal => Res.fatal
            | Res.exited c => Res.exited c
            | Res.blocked => Res.blocked
          | none => run_external_command ctx s (a0 :: args1) os) =
          Res.ok (v, s1, os1) := h
      cases hb : builtin_command a0 with
      | some b =>
        rw [hb] at hx2
        simp at hx2
      | none =>
        rw [hb] at h3
        rw [hb] at hx2
        simp only [Option.isNone_none, Bool.true_and] at hx2
        have h4 : run_external_command ctx s (a0 :: args1) os =
            Res.ok (v, s1, os1) := h3
        exact run_external_command_resolved ctx s a0 args1 os v s1 os1 hx2 h4
  | err =>
    rw [he] at hx
    have hx2 : false = true := hx
    cases hx2
  | fatal =>
    rw [he] at hx
    have hx2 : false = true := hx
    cases hx2
  | exited c =>
    rw [he] at hx
    have hx2 : false = true := hx
    cases hx2
  | blocked =>
    rw [he] at hx
    have hx2 : false = true := hx
    cases hx2

/-! ## Effects of `create_job` -/

/-- Unchanged fields and map contents of the `create_job` registration
fold. -/
theorem register_fold_spec (id : JobId) :
    ∀ (childs : List Pid) (acc : Shell),
      (childs.foldl (register_child id) acc).last_status = acc.last_status ∧
      (childs.foldl (register_child id) acc).interactive = acc.interactive ∧
      (childs.foldl (register_child id) acc).path_table = acc.path_table ∧
      (childs.foldl (register_child id) acc).shell_termios = acc.shell_termios ∧
      (childs.foldl (register_child id) acc).shell_pgid = acc.shell_pgid ∧
      (childs.foldl (register_child id) acc).jobs = acc.jobs ∧
      (childs.foldl (register_child id) acc).last_fore_job = acc.last_fore_job ∧
      (∀ p, lookupA (childs.foldl (register_child id) acc).states p =
        (if p ∈ childs then some ProcessState.Running else lookupA acc.states p)) ∧
      (∀ p, lookupA (childs.foldl (register_child id) acc).pid_job_mapping p =
        (if p ∈ childs then some id else lookupA acc.pid_job_mapping p)) := by
  intro childs
  induction childs with
  | nil =>
    intro acc
    refine ⟨rfl, rfl, rfl, rfl, rfl, rfl, rfl, ?_, ?_⟩ <;> intro p <;> simp
  | cons c rest ih =>
    intro acc
    have hstep := ih (register_child id acc c)
    refine ⟨hstep.1, hstep.2.1, hstep.2.2.1, hstep.2.2.2.1, hstep.2.2.2.2.1,
      hstep.2.2.2.2.2.1, hstep.2.2.2.2.2.2.1, ?_, ?_⟩
    · intro p
      rw [List.foldl_cons, hstep.2.2.2.2.2.2.2.1 p]
      by_cases hp : p ∈ rest
      · simp [hp]
      · have hs : lookupA (register_child id acc c).states p =
            lookupA (insertA acc.states c ProcessState.Running) p := rfl
        rw [if_neg hp, hs, lookupA_insertA]
        by_cases hc : c = p
        · simp [hc, List.mem_cons]
        · have hmem : ¬ p ∈ c :: rest := by
            intro hm
            rcases List.mem_cons.mp hm with hm | hm
            · exact hc hm.symm
            · exact hp hm
          simp [hc, hmem]
    · intro p
      rw [List.foldl_cons, hstep.2.2.2.2.2.2.2.2 p]
      by_cases hp : p ∈ rest
      · simp [hp]
      · have hs : lookupA (register_child id acc c).pid_job_mapping p =
            lookupA (insertA acc.pid_job_mapping c id) p := by
          show lookupA (insertA (acc.set_process_state c ProcessState.Running).pid_job_mapping c id) p =
            lookupA (insertA acc.pid_job_mapping c id) p
          rfl
        rw [if_neg hp, hs, lookupA_insertA]
        by_cases hc : c = p
        · simp [hc, List.mem_cons]
        · have hmem : ¬ p ∈ c :: rest := by
            intro hm
            rcases List.mem_cons.mp hm with hm | hm
            · exact hc hm.symm
            · exact hp hm
          simp [hc, hmem]

/-- The observable effect of `create_job`: the returned job record, the
new registry entry under the freshly allocated id, and the per-pid
updates to `states` and `pid_job_mapping`; every other field is
untouched. -/
theorem create_job_spec (s : Shell) (name : String) (pgid : Pid)
    (childs : List Pid) :
    (s.create_job name pgid childs).1 =
      Job.new s.alloc_job_id pgid name childs ∧
    (s.create_job name pgid childs).2.last_status = s.last_status ∧
    (s.create_job name pgid childs).2.interactive = s.interactive ∧
    (s.create_job name pgid childs).2.path_table = s.path_table ∧
    (s.create_job name pgid childs).2.shell_termios = s.shell_termios ∧
    (s.create_job name pgid childs).2.shell_pgid = s.shell_pgid ∧
    (s.create_job name pgid childs).2.last_fore_job = s.last_fore_job ∧
    (s.create_job name pgid childs).2.jobs =
      insertA s.jobs s.alloc_job_id (Job.new s.alloc_job_id pgid name childs) ∧
    (∀ p, lookupA (s.create_job name pgid childs).2.states p =
      (if p ∈ childs then some ProcessState.Running else lookupA s.states p)) ∧
    (∀ p, lookupA (s.create_job name pgid childs).2.pid_job_mapping p =
      (if p ∈ childs then some s.alloc_job_id else lookupA s.pid_job_mapping p)) := by
  have hf := register_fold_spec s.alloc_job_id childs s
  refine ⟨rfl, hf.1, hf.2.1, hf.2.2.1, hf.2.2.2.1, hf.2.2.2.2.1,
    hf.2.2.2.2.2.2.1, ?_, hf.2.2.2.2.2.2.2.1, hf.2.2.2.2.2.2.2.2⟩
  show insertA (childs.foldl (register_child s.alloc_job_id) s).jobs s.alloc_job_id
      (Job.new s.alloc_job_id pgid name childs) =
    insertA s.jobs s.alloc_job_id (Job.new s.alloc_job_id pgid name childs)
  rw [hf.2.2.2.2.2.1]

/-- A job fixture for concrete witnesses. -/
def jobFix (id : JobId) (pids : List Pid) : Job :=
  { id := id
    pgid := 5
    cmd := "sleep 1"
    processes := pids
    termios := none }

/-- An otherwise empty non-interactive shell fixture. -/
def shellFix : Shell :=
  { last_status := 0
    interactive := false
    path_table := []
    shell_termios := none
    states := []
    shell_pgid := 10
    jobs := []
    last_fore_job := none
    pid_job_mapping := [] }

/-- A shell whose registry holds jobs 1 and 2, so allocation must skip
to 3. -/
def shellTwoJobs : Shell :=
  { shellFix with jobs := [(1, jobFix 1 [5]), (2, jobFix 2 [6])] }

/-- A kernel-oracle fixture: one forkable pid, no pending events. -/
def osFix : OS :=
  { forks := [5]
    events := []
    terminal := { fgPgrp := 10, attrs := 3 }
    stderr := []
    trace := [] }

/-! ## Frame lemmas for the wait machinery -/

/-- The shell fields `wait_for_job` never writes (everything except
`states`, `jobs` and `last_fore_job`). -/
structure KeepsCore (s s1 : Shell) : Prop where
  last_status_eq : s1.last_status = s.last_status
  interactive_eq : s1.interactive = s.interactive
  path_table_eq : s1.path_table = s.path_table
  shell_termios_eq : s1.shell_termios = s.shell_termios
  shell_pgid_eq : s1.shell_pgid = s.shell_pgid
  pid_job_mapping_eq : s1.pid_job_mapping = s.pid_job_mapping

/-- The shell fields the reaping loop never writes (only `states` may
change). -/
structure OnlyStatesChanged (s s1 : Shell) extends KeepsCore s s1 : Prop where
  jobs_eq : s1.jobs = s.jobs
  last_fore_job_eq : s1.last_fore_job = s.last_fore_job

theorem KeepsCore.kc_refl (s : Shell) : KeepsCore s s :=
  ⟨rfl, rfl, rfl, rfl, rfl, rfl⟩

theorem KeepsCore.kc_trans {s s1 s2 : Shell}
    (h1 : KeepsCore s s1) (h2 : KeepsCore s1 s2) : KeepsCore s s2 :=
  ⟨h2.last_status_eq.trans h1.last_status_eq,
   h2.interactive_eq.trans h1.interactive_eq,
   h2.path_table_eq.trans h1.path_table_eq,
   h2.shell_termios_eq.trans h1.shell_termios_eq,
   h2.shell_pgid_eq.trans h1.shell_pgid_eq,
   h2.pid_job_mapping_eq.trans h1.pid_job_mapping_eq⟩

theorem OnlyStatesChanged.osc_refl (s : Shell) : OnlyStatesChanged s s :=
  ⟨KeepsCore.kc_refl s, rfl, rfl⟩

theorem OnlyStatesChanged.osc_trans {s s1 s2 : Shell}
    (h1 : OnlyStatesChanged s s1) (h2 : OnlyStatesChanged s1 s2) :
    OnlyStatesChanged s s2 :=
  ⟨h1.toKeepsCore.kc_trans h2.toKeepsCore,
   h2.jobs_eq.trans h1.jobs_eq,
   h2.last_fore_job_eq.trans h1.last_fore_job_eq⟩

theorem set_process_state_frame (s : Shell) (pid : Pid) (st : ProcessState) :
    OnlyStatesChanged s (s.set_process_state pid st) :=
  ⟨⟨rfl, rfl, rfl, rfl, rfl, rfl⟩, rfl, rfl⟩

theorem set_process_state_mono (s : Shell) (pid q : Pid) (st : ProcessState) :
    (lookupA s.states q).isSome = true →
    (lookupA (s.set_process_state pid st).states q).isSome = true := by
  intro h
  show (lookupA (insertA s.states pid st) q).isSome = true
  rw [lookupA_insertA]
  by_cases hq : pid = q <;> simp [hq, h]

theorem wait_for_any_process_ok (s s1 : Shell) (nb : Bool) (ev : WaitEvent)
    (r : Option Pid) (h : wait_for_any_process s nb ev = some (r, s1)) :
    OnlyStatesChanged s s1 ∧
      ∀ q, (lookupA s.states q).isSome = true →
        (lookupA s1.states q).isSome = true := by
  cases ev with
  | exited pid k =>
    injection h with h1
    injection h1 with h1 h2
    rw [← h2]
    exact ⟨set_process_state_frame s pid _, fun q => set_process_state_mono s pid q _⟩
  | signaled pid =>
    injection h with h1
    injection h1 with h1 h2
    rw [← h2]
    exact ⟨set_process_state_frame s pid _, fun q => set_process_state_mono s pid q _⟩
  | stopped pid =>
    injection h with h1
    injection h1 with h1 h2
    rw [← h2]
    exact ⟨set_process_state_frame s pid _, fun q => set_process_state_mono s pid q _⟩
  | stillAlive =>
    injection h with h1
    injection h1 with h1 h2
    rw [← h2]
    exact ⟨OnlyStatesChanged.osc_refl s, fun q h => h⟩
  | echild =>
    injection h with h1
    injection h1 with h1 h2
    rw [← h2]
    exact ⟨OnlyStatesChanged.osc_refl s, fun q h => h⟩
  | other => cases h

/-- `Job.completed` and `Job.stopped` read only `states`. -/
theorem completed_stopped_states_eq (job : Job) (s s1 : Shell)
    (h : s1.states = s.states) :
    job.completed s1 = job.completed s ∧ job.stopped s1 = job.stopped s := by
  constructor <;>
    simp [Job.completed, Job.stopped, Shell.get_process_state, h]

theorem wait_loop_ok (job : Job) :
    ∀ (evs : List WaitEvent) (s s1 : Shell) (evs1 : List WaitEvent),
      wait_loop job evs s = Res.ok (s1, evs1) →
      OnlyStatesChanged s s1 ∧
      (∀ q, (lookupA s.states q).isSome = true →
        (lookupA s1.states q).isSome = true) ∧
      (job.completed s1 || job.stopped s1) = true ∧
      ∃ consumed, evs = consumed ++ evs1 := by
  intro evs
  induction evs with
  | nil =>
    intro s s1 evs1 h
    rw [wait_loop.eq_def] at h
    by_cases hc : (job.completed s || job.stopped s) = true
    · rw [if_pos hc] at h
      injection h with h1
      injection h1 with h1 h2
      rw [← h1, ← h2]
      exact ⟨OnlyStatesChanged.osc_refl s, fun q hq => hq, hc, [], rfl⟩
    · rw [if_neg hc] at h
      have h2 : Res.blocked = Res.ok (s1, evs1) := h
      cases h2
  | cons ev rest ih =>
    intro s s1 evs1 h
    rw [wait_loop.eq_def] at h
    by_cases hc : (job.completed s || job.stopped s) = true
    · rw [if_pos hc] at h
      injection h with h1
      injection h1 with h1 h2
      rw [← h1, ← h2]
      exact ⟨OnlyStatesChanged.osc_refl s, fun q hq => hq, hc, [], rfl⟩
    · rw [if_neg hc] at h
      have h2 : (match wait_for_any_process s false ev with
          | some (_, s1) => wait_loop job rest s1
          | none => Res.fatal) = Res.ok (s1, evs1) := h
      cases hw : wait_for_any_process s false ev with
      | none =>
        rw [hw] at h2
        have h3 : (Res.fatal : Res (Shell × List WaitEvent)) = Res.ok (s1, evs1) := h2
        cases h3
      | some v =>
        obtain ⟨r, s2⟩ := v
        rw [hw] at h2
        have h3 : wait_loop job rest s2 = Res.ok (s1, evs1) := h2
        obtain ⟨hframe, hmono, hcond, consumed, hcons⟩ := ih s2 s1 evs1 h3
        obtain ⟨hframe2, hmono2⟩ := wait_for_any_process_ok s s2 false ev r hw
        exact ⟨hframe2.osc_trans hframe, fun q hq => hmono q (hmono2 q hq), hcond,
          ev :: consumed, by rw [hcons]; rfl⟩

/-- Exiting the reap loop requires no event when the job is already all
completed or all stopped. -/
theorem wait_loop_immediate (job : Job) (evs : List WaitEvent) (s : Shell)
    (hc : (job.completed s || job.stopped s) = true) :
    wait_loop job evs s = Res.ok (s, evs) := by
  rw [wait_loop.eq_def, if_pos hc]

theorem destroy_job_some (s s2 : Shell) (job : Job)
    (h : destroy_job s job = some s2) :
    KeepsCore s s2 ∧ s2.states = s.states ∧
      s2.jobs = eraseA s.jobs job.id ∧
      s2.last_fore_job =
        (if s.last_fore_job = some job.id then none else s.last_fore_job) := by
  rw [destroy_job] at h
  cases hl : lookupA s.jobs job.id with
  | none => rw [hl] at h; cases h
  | some j0 =>
    rw [hl] at h
    cases hf : s.last_fore_job with
    | none =>
      simp only [hf] at h
      injection h with h1
      rw [← h1]
      exact ⟨⟨rfl, rfl, rfl, rfl, rfl, rfl⟩, rfl, rfl, by simp [hf]⟩
    | some lastId =>
      simp only [hf] at h
      by_cases he : job.id = lastId
      · rw [if_pos he] at h
        injection h with h1
        rw [← h1]
        refine ⟨⟨rfl, rfl, rfl, rfl, rfl, rfl⟩, rfl, rfl, ?_⟩
        rw [if_pos (by rw [he])]
      · rw [if_neg he] at h
        injection h with h1
        rw [← h1]
        refine ⟨⟨rfl, rfl, rfl, rfl, rfl, rfl⟩, rfl, rfl, ?_⟩
        rw [if_neg (fun hx : some lastId = some job.id => by
          injection hx with hx
          exact he hx.symm)]

/-- Effects of a successful `wait_for_job_finish`: the returned state is
the last process's state, `states` is untouched, the kernel oracle
changes at most by the stop message, and the registry changes per
branch. -/
theorem wait_for_job_finish_ok (job : Job) (s0 : Shell) (os : OS)
    (st : ProcessState) (s1 : Shell) (os1 : OS)
    (h : wait_for_job_finish job s0 os = Res.ok (st, s1, os1)) :
    KeepsCore s0 s1 ∧ s1.states = s0.states ∧
    (∃ lp, job.processes.getLast? = some lp ∧
      s0.get_process_state lp = some st) ∧
    os1.terminal = os.terminal ∧ os1.trace = os.trace ∧ os1.forks = os.forks ∧
    os1.events = os.events ∧
    ((∃ c, st = ProcessState.Completed c) ∨ (∃ p, st = ProcessState.Stopped p)) ∧
    (∀ c, st = ProcessState.Completed c →
      s1.jobs = eraseA s0.jobs job.id ∧
      s1.last_fore_job =
        (if s0.last_fore_job = some job.id then none else s0.last_fore_job) ∧
      os1.stderr = os.stderr) ∧
    (∀ p, st = ProcessState.Stopped p →
      s1.jobs = s0.jobs ∧ s1.last_fore_job = s0.last_fore_job ∧
      os1.stderr = os.stderr ++ [stopped_message job]) := by
  rw [wait_for_job_finish] at h
  cases hlp : job.processes.getLast? with
  | none =>
    rw [hlp] at h
    have h2 : (Res.fatal : Res (ProcessState × Shell × OS)) =
        Res.ok (st, s1, os1) := h
    cases h2
  | some lp =>
    rw [hlp] at h
    have h2 : (match s0.get_process_state lp with
        | some (ProcessState.Completed c) =>
          match destroy_job s0 job with
          | none => Res.fatal
          | some s2 => Res.ok (ProcessState.Completed c, s2, os)
        | some (ProcessState.Stopped p) =>
          Res.ok (ProcessState.Stopped p, s0, smash_err os (stopped_message job))
        | _ => Res.fatal) = Res.ok (st, s1, os1) := h
    cases hst : s0.get_process_state lp with
    | none =>
      rw [hst] at h2
      have h3 : (Res.fatal : Res (ProcessState × Shell × OS)) =
          Res.ok (st, s1, os1) := h2
      cases h3
    | some pst =>
      rw [hst] at h2
      cases pst with
      | Running =>
        have h3 : (Res.fatal : Res (ProcessState × Shell × OS)) =
            Res.ok (st, s1, os1) := h2
        cases h3
      | Completed c =>
        have h3 : (match destroy_job s0 job with
            | none => Res.fatal
            | some s2 => Res.ok (ProcessState.Completed c, s2, os)) =
            Res.ok (st, s1, os1) := h2
        cases hd : destroy_job s0 job with
        | none =>
          rw [hd] at h3
          have h4 : (Res.fatal : Res (ProcessState × Shell × OS)) =
              Res.ok (st, s1, os1) := h3
          cases h4
        | some s2 =>
          rw [hd] at h3
          have h4 : Res.ok (ProcessState.Completed c, s2, os) =
              Res.ok (st, s1, os1) := h3
          injection h4 with h5
          injection h5 with hst1 h6
          injection h6 with hs1 hos1
          obtain ⟨hdk, hdstates, hdjobs, hdlfj⟩ := destroy_job_some s0 s2 job hd
          rw [← hst1, ← hs1, ← hos1]
          refine ⟨hdk, hdstates, ⟨lp, rfl, hst⟩, rfl, rfl, rfl, rfl, Or.inl ⟨c, rfl⟩, ?_, ?_⟩
          · intro c1 hc1
            exact ⟨hdjobs, hdlfj, rfl⟩
          · intro p hp
            cases hp
      | Stopped p =>
        have h3 : Res.ok (ProcessState.Stopped p, s0,
            smash_err os (stopped_message job)) = Res.ok (st, s1, os1) := h2
        injection h3 with h5
        injection h5 with hst1 h6
        injection h6 with hs1 hos1
        rw [← hst1, ← hs1, ← hos1]
        refine ⟨KeepsCore.kc_refl s0, rfl, ⟨lp, rfl, hst⟩, rfl, rfl, rfl, rfl,
          Or.inr ⟨p, rfl⟩, ?_, ?_⟩
        · intro c hc
          cases hc
        · intro p1 hp1
          exact ⟨rfl, rfl, rfl⟩

/-- Master lemma about a successful `wait_for_job`: the frame, the
exit condition, the returned state, and the branch effects. -/
theorem wait_for_job_ok (s : Shell) (job : Job) (os : OS)
    (st : ProcessState) (s1 : Shell) (os1 : OS)
    (h : wait_for_job s job os = Res.ok (st, s1, os1)) :
    KeepsCore s s1 ∧
    (∀ q, (lookupA s.states q).isSome = true →
      (lookupA s1.states q).isSome = true) ∧
    os1.terminal = os.terminal ∧ os1.trace = os.trace ∧ os1.forks = os.forks ∧
    (job.completed s1 || job.stopped s1) = true ∧
    (∃ lp, job.processes.getLast? = some lp ∧
      s1.get_process_state lp = some st) ∧
    ((∃ c, st = ProcessState.Completed c) ∨ (∃ p, st = ProcessState.Stopped p)) ∧
    (∀ c, st = ProcessState.Completed c →
      s1.jobs = eraseA s.jobs job.id ∧
      s1.last_fore_job =
        (if s.last_fore_job = some job.id then none else s.last_fore_job) ∧
      os1.stderr = os.stderr) ∧
    (∀ p, st = ProcessState.Stopped p →
      s1.jobs = s.jobs ∧ s1.last_fore_job = s.last_fore_job ∧
      os1.stderr = os.stderr ++ [stopped_message job]) := by
  rw [wait_for_job] at h
  cases hw : wait_loop job os.events s with
  | ok v =>
    obtain ⟨s0, evs1⟩ := v
    rw [hw] at h
    have hfin : wait_for_job_finish job s0 { os with events := evs1 } =
        Res.ok (st, s1, os1) := h
    obtain ⟨hframe, hmono, hcond, _, _⟩ := wait_loop_ok job os.events s s0 evs1 hw
    obtain ⟨hfk, hfstates, hlast, hterm, htrace, hforks, _, hshape, hcompl, hstop⟩ :=
      wait_for_job_finish_ok job s0 { os with events := evs1 } st s1 os1 hfin
    have hcond1 : (job.completed s1 || job.stopped s1) = true := by
      obtain ⟨hc1, hc2⟩ := completed_stopped_states_eq job s0 s1 hfstates
      rw [hc1, hc2]
      exact hcond
    refine ⟨hframe.toKeepsCore.kc_trans hfk, ?_, hterm, htrace, hforks, hcond1,
      ?_, hshape, ?_, ?_⟩
    · intro q hq
      rw [hfstates]
      exact hmono q hq
    · obtain ⟨lp, hlp, hstate⟩ := hlast
      refine ⟨lp, hlp, ?_⟩
      show lookupA s1.states lp = some st
      rw [hfstates]
      exact hstate
    · intro c hc
      obtain ⟨hjobs, hlfj, hstderr⟩ := hcompl c hc
      exact ⟨by rw [hjobs, hframe.jobs_eq],
        by rw [hlfj, hframe.last_fore_job_eq], hstderr⟩
    · intro p hp
      obtain ⟨hjobs, hlfj, hstderr⟩ := hstop p hp
      exact ⟨by rw [hjobs, hframe.jobs_eq],
        by rw [hlfj, hframe.last_fore_job_eq], hstderr⟩
  | err => rw [hw] at h; cases h
  | fatal => rw [hw] at h; cases h
  | exited c => rw [hw] at h; cases h
  | blocked => rw [hw] at h; cases h

/-- A job's pids being pointwise `Completed`-or-`Stopped`, the condition
the claim states for the reap loop's exit. -/
def pointwise_terminal (job : Job) (s : Shell) : Bool :=
  job.processes.all fun pid =>
    match s.get_process_state pid with
    | some (ProcessState.Completed _) => true
    | some (ProcessState.Stopped _) => true
    | _ => false

/-- A job whose first process has completed and whose second is stopped:
pointwise terminal, but neither all-completed nor all-stopped. -/
def mixedJob : Job :=
  { id := 1
    pgid := 1
    cmd := "p"
    processes := [1, 2]
    termios := none }

/-- The shell holding the mixed states for `mixedJob`. -/
def mixedShell : Shell :=
  { shellFix with states := [(1, ProcessState.Completed 0), (2, ProcessState.Stopped 2)] }

/-- The oracle with no further kernel events. -/
def mixedOS : OS :=
  { forks := []
    events := []
    terminal := { fgPgrp := 10, attrs := 3 }
    stderr := []
    trace := [] }

/-- C2 counterexample: every pid of `mixedJob` is in a state that is
Completed or Stopped, yet `wait_for_job` does not return — it keeps
invoking the blocking reaper (modelled as `blocked` on an event-less
oracle), because the code's loop exits only when the states are ALL
completed or ALL stopped. -/
theorem wait_for_job_not_pointwise :
    pointwise_terminal mixedJob mixedShell = true ∧
    wait_for_job mixedShell mixedJob mixedOS = Res.blocked := by
  constructor
  · decide
  · decide

/-- C2 (amended): the reap loop of `wait_for_job` stops invoking the
reaper exactly when the job's processes are all `Completed` or all
`Stopped` — immediately, consuming no event, when that already holds —
and a returning `wait_for_job` hands back the state of the last process
of the job as found in the final shell. -/
theorem wait_for_job_exit_condition (job : Job) (s : Shell) (os : OS) :
    ((job.completed s || job.stopped s) = true →
      wait_loop job os.events s = Res.ok (s, os.events)) ∧
    (∀ s1 evs1, wait_loop job os.events s = Res.ok (s1, evs1) →
      (job.completed s1 || job.stopped s1) = true) ∧
    (∀ st s1 os1, wait_for_job s job os = Res.ok (st, s1, os1) →
      (job.completed s1 || job.stopped s1) = true ∧
      ∃ lp, job.processes.getLast? = some lp ∧
        s1.get_process_state lp = some st) := by
  refine ⟨fun hc => wait_loop_immediate job os.events s hc, ?_, ?_⟩
  · intro s1 evs1 h
    exact (wait_loop_ok job os.events s s1 evs1 h).2.2.1
  · intro st s1 os1 h
    obtain ⟨_, _, _, _, _, hcond, hlast, _, _, _⟩ := wait_for_job_ok s job os st s1 os1 h
    exact ⟨hcond, hlast⟩

/-- A completed single-process job used to witness the wait theorems. -/
def doneJob : Job :=
  { id := 1
    pgid := 5
    cmd := "x"
    processes := [5]
    termios := none }

/-- Registry and states for `doneJob`: the job is registered and its one
process has completed with status 0. -/
def doneShell : Shell :=
  { shellFix with
      states := [(5, ProcessState.Completed 0)]
      jobs := [(1, doneJob)]
      pid_job_mapping := [(5, 1)]
      last_fore_job := some 1 }

theorem wait_for_job_exit_condition_witness :
    wait_loop doneJob mixedOS.events doneShell = Res.ok (doneShell, mixedOS.events) ∧
    (doneJob.completed doneShell || doneJob.stopped doneShell) = true ∧
    doneShell.get_process_state 5 = some (ProcessState.Completed 0) := by
  have h := wait_for_job_exit_condition doneJob doneShell mixedOS
  have hc : (doneJob.completed doneShell || doneJob.stopped doneShell) = true := by
    decide
  refine ⟨h.1 hc, hc, ?_⟩
  have hr : wait_for_job doneShell doneJob mixedOS =
      Res.ok (ProcessState.Completed 0,
        { doneShell with jobs := [], last_fore_job := none },
        mixedOS) := by
    decide
  obtain ⟨-, lp, hlp, hstate⟩ := h.2.2 (ProcessState.Completed 0)
    { doneShell with jobs := [], last_fore_job := none } mixedOS hr
  have hlp5 : lp = 5 := by
    have : doneJob.processes.getLast? = some 5 := by decide
    rw [this] at hlp
    injection hlp with hlp
    exact hlp.symm
  rw [hlp5] at hstate
  exact hstate

/-- C8: when `wait_for_job` returns a `Completed` state the job has been
removed from the registry and `last_fore_job` has been cleared exactly
when it referred to this job, while `pid_job_mapping` is untouched and
no `states` entry disappears; when it returns a `Stopped` state the
message `[<jobid>] Stopped: <command_text>` has been appended to
standard error and the `jobs` registry is unchanged (the job remains
registered). -/
theorem wait_for_job_branch_effects (s : Shell) (job : Job) (os : OS)
    (st : ProcessState) (s1 : Shell) (os1 : OS)
    (h : wait_for_job s job os = Res.ok (st, s1, os1)) :
    (∀ c, st = ProcessState.Completed c →
      lookupA s1.jobs job.id = none ∧
      s1.jobs = eraseA s.jobs job.id ∧
      s1.last_fore_job =
        (if s.last_fore_job = some job.id then none else s.last_fore_job) ∧
      s1.pid_job_mapping = s.pid_job_mapping ∧
      (∀ q, (lookupA s.states q).isSome = true →
        (lookupA s1.states q).isSome = true) ∧
      os1.stderr = os.stderr) ∧
    (∀ p, st = ProcessState.Stopped p →
      s1.jobs = s.jobs ∧
      os1.stderr = os.stderr ++
        ["[" ++ toString job.id ++ "] Stopped: " ++ job.cmd]) := by
  obtain ⟨hcore, hmono, _, _, _, _, _, _, hcompl, hstop⟩ :=
    wait_for_job_ok s job os st s1 os1 h
  constructor
  · intro c hc
    obtain ⟨hjobs, hlfj, hstderr⟩ := hcompl c hc
    refine ⟨?_, hjobs, hlfj, hcore.pid_job_mapping_eq, hmono, hstderr⟩
    rw [hjobs, lookupA_eraseA, if_pos rfl]
  · intro p hp
    obtain ⟨hjobs, _, hstderr⟩ := hstop p hp
    exact ⟨hjobs, hstderr⟩

/-- A stopped single-process job fixture. -/
def stopShell : Shell :=
  { shellFix with
      states := [(5, ProcessState.Stopped 5)]
      jobs := [(1, doneJob)]
      pid_job_mapping := [(5, 1)] }

theorem wait_for_job_branch_effects_witness :
    lookupA ({ doneShell with jobs := [], last_fore_job := none } : Shell).jobs
        doneJob.id = none ∧
    ({ doneShell with jobs := [], last_fore_job := none } : Shell).pid_job_mapping =
      doneShell.pid_job_mapping := by
  have hr : wait_for_job doneShell doneJob mixedOS =
      Res.ok (ProcessState.Completed 0,
        { doneShell with jobs := [], last_fore_job := none },
        mixedOS) := by
    decide
  obtain ⟨hjobs_none, -, -, hpjm, -, -⟩ :=
    (wait_for_job_branch_effects doneShell doneJob mixedOS
      (ProcessState.Completed 0)
      { doneShell with jobs := [], last_fore_job := none } mixedOS hr).1
      0 rfl
  exact ⟨hjobs_none, hpjm⟩

/-! ## C9: the terminal custody round-trip of the foreground path -/

/-- C9: a successful `run_in_foreground` performs exactly the terminal
operations `tcsetpgrp(job.pgid)`, (the wait, which touches no terminal
state), `tcgetattr`, `tcsetpgrp(shell_pgid)`, `tcsetattr(shell_termios)`
in this order — witnessed by the appended operation trace — and
consequently leaves the terminal's foreground process group equal to the
shell's `shell_pgid` and its attributes equal to `shell_termios`. The
attributes snapshot taken between the wait and the hand-back lands in
the job's saved `termios` whenever the job is still registered. -/
theorem run_in_foreground_round_trip (s : Shell) (job : Job) (os : OS)
    (t : Termios) (st : ProcessState) (s1 : Shell) (os1 : OS)
    (hterm : s.shell_termios = some t)
    (h : run_in_foreground s job os = Res.ok (st, s1, os1)) :
    os1.terminal.fgPgrp = s.shell_pgid ∧
    os1.terminal.attrs = t ∧
    os1.trace = os.trace ++ [TermOp.setPgrp job.pgid, TermOp.getAttrs,
      TermOp.setPgrp s.shell_pgid, TermOp.setAttrs t] ∧
    (∀ j1, lookupA s1.jobs job.id = some j1 →
      j1.termios = some os.terminal.attrs) := by
  rw [run_in_foreground] at h
  cases hw : wait_for_job s job (set_terminal_process_group os job.pgid) with
  | ok v =>
    obtain ⟨st0, s0, os2⟩ := v
    rw [hw] at h
    obtain ⟨hcore, _, hterm2, htrace2, _, _, _, _, _, _⟩ :=
      wait_for_job_ok s job (set_terminal_process_group os job.pgid) st0 s0 os2 hw
    have hs0t : s0.shell_termios = some t := by
      rw [hcore.shell_termios_eq]
      exact hterm
    have h2 : (match s0.shell_termios with
        | none => Res.fatal
        | some tt =>
          Res.ok (st0,
            ({ s0 with
                jobs := updateA s0.jobs job.id
                  (fun j => { j with termios := some os2.terminal.attrs }) } : Shell),
            restore_terminal_attrs
              (set_terminal_process_group
                { os2 with trace := os2.trace ++ [TermOp.getAttrs] }
                s0.shell_pgid) tt)) = Res.ok (st, s1, os1) := h
    rw [hs0t] at h2
    have h3 : Res.ok (st0,
        ({ s0 with
            shell_termios := some t
            jobs := updateA s0.jobs job.id
              (fun j => { j with termios := some os2.terminal.attrs }) } : Shell),
        restore_terminal_attrs
          (set_terminal_process_group
            { os2 with trace := os2.trace ++ [TermOp.getAttrs] }
            s0.shell_pgid) t) = Res.ok (st, s1, os1) := h2
    injection h3 with h4
    injection h4 with hst1 h5
    injection h5 with hs1 hos1
    have hattrs : os2.terminal.attrs = os.terminal.attrs := by
      rw [hterm2]
      rfl
    have htr : os2.trace = os.trace ++ [TermOp.setPgrp job.pgid] := by
      rw [htrace2]
      rfl
    rw [← hos1]
    refine ⟨?_, ?_, ?_, ?_⟩
    · show s0.shell_pgid = s.shell_pgid
      exact hcore.shell_pgid_eq
    · rfl
    · show (os2.trace ++ [TermOp.getAttrs]) ++
          [TermOp.setPgrp s0.shell_pgid] ++ [TermOp.setAttrs t] =
          os.trace ++ [TermOp.setPgrp job.pgid, TermOp.getAttrs,
            TermOp.setPgrp s.shell_pgid, TermOp.setAttrs t]
      rw [htr, hcore.shell_pgid_eq]
      simp
    · intro j1 hj1
      rw [← hs1] at hj1
      have hj2 : lookupA (updateA s0.jobs job.id
          (fun j => { j with termios := some os2.terminal.attrs })) job.id =
          some j1 := hj1
      rw [lookupA_updateA, if_pos rfl] at hj2
      cases hl : lookupA s0.jobs job.id with
      | none => rw [hl] at hj2; cases hj2
      | some j0 =>
        rw [hl] at hj2
        injection hj2 with hj2
        rw [← hj2, hattrs]
  | err => rw [hw] at h; cases h
  | fatal => rw [hw] at h; cases h
  | exited c => rw [hw] at h; cases h
  | blocked => rw [hw] at h; cases h

/-- An interactive shell fixture whose terminal attributes are 7. -/
def fgShell : Shell :=
  { last_status := 42
    interactive := true
    path_table := [("x", "/bin/x")]
    shell_termios := some 7
    states := [(5, ProcessState.Completed 0)]
    shell_pgid := 10
    jobs := [(1, doneJob)]
    last_fore_job := none
    pid_job_mapping := [(5, 1)] }

theorem run_in_foreground_round_trip_witness :
    (mixedOS.terminal.fgPgrp = 10 → True) ∧
    ({ mixedOS with
        terminal := { fgPgrp := 10, attrs := 7 }
        trace := [TermOp.setPgrp 5, TermOp.getAttrs, TermOp.setPgrp 10,
          TermOp.setAttrs 7] } : OS).terminal.fgPgrp = fgShell.shell_pgid := by
  have hr : run_in_foreground fgShell doneJob mixedOS =
      Res.ok (ProcessState.Completed 0,
        { fgShell with jobs := [], last_fore_job := none },
        { mixedOS with
            terminal := { fgPgrp := 10, attrs := 7 }
            trace := [TermOp.setPgrp 5, TermOp.getAttrs, TermOp.setPgrp 10,
              TermOp.setAttrs 7] }) := by
    decide
  have h := run_in_foreground_round_trip fgShell doneJob mixedOS 7
    (ProcessState.Completed 0)
    { fgShell with jobs := [], last_fore_job := none }
    { mixedOS with
        terminal := { fgPgrp := 10, attrs := 7 }
        trace := [TermOp.setPgrp 5, TermOp.getAttrs, TermOp.setPgrp 10,
          TermOp.setAttrs 7] }
    rfl hr
  exact ⟨fun _ => trivial, h.1⟩

theorem alloc_job_id_smallest_free_witness :
    1 ≤ shellTwoJobs.alloc_job_id ∧
      lookupA shellTwoJobs.jobs shellTwoJobs.alloc_job_id = none ∧
      (lookupA shellTwoJobs.jobs 2).isSome = true := by
  refine ⟨(alloc_job_id_smallest_free shellTwoJobs).1,
    (alloc_job_id_smallest_free shellTwoJobs).2.1,
    (alloc_job_id_smallest_free shellTwoJobs).2.2 2 (by decide) ?_⟩
  show 2 < Shell.alloc_job_id shellTwoJobs
  decide

/-! ## C1: the `Failure` gate also fires after exit code 0 (code bug) -/

/-- C1: evaluating the gate of `run_terms` at the failing input: a
pipeline whose `run_if` is `Failure` IS run when the previous status is
exit code 0 (the `(ExitedWith(_), Failure)` match arm also matches 0),
contradicting the claim that it runs only on a non-zero exit. The
remaining conjuncts record the parts of the claim the code does satisfy:
a `Running` status matches neither `Success` nor `Failure`, `Always` runs
unconditionally, and `Failure` does fire on non-zero exits. -/
theorem failure_gate_fires_on_zero_exit :
    gate_matches (ExitStatus.ExitedWith 0) RunIf.Failure = true ∧
    gate_matches (ExitStatus.Running 7) RunIf.Failure = false ∧
    gate_matches (ExitStatus.Running 7) RunIf.Success = false ∧
    gate_matches (ExitStatus.Running 7) RunIf.Always = true ∧
    gate_matches (ExitStatus.ExitedWith 1) RunIf.Failure = true ∧
    gate_matches (ExitStatus.ExitedWith 0) RunIf.Success = true := by
  refine ⟨rfl, rfl, rfl, rfl, ?_, rfl⟩
  rfl

/-! ## C4: the Reaper's translation of kernel wait outcomes -/

/-- C4: `wait_for_any_process` translates kernel outcomes exactly as
claimed: a normal exit with code `k` records `Completed k` for that pid,
a termination by signal records `Completed (-1)`, a stop records
`Stopped pid`, the two no-child outcomes return `None` with the shell
untouched, and any other outcome panics (`none` here). The recorded
state is observable through `get_process_state` and no other pid's state
changes. -/
theorem wait_for_any_process_translation (s : Shell) (nb : Bool) (pid q : Pid)
    (k : Int) (st : ProcessState) :
    (wait_for_any_process s nb (WaitEvent.exited pid k) =
        some (some pid, s.set_process_state pid (ProcessState.Completed k))) ∧
    (wait_for_any_process s nb (WaitEvent.signaled pid) =
        some (some pid, s.set_process_state pid (ProcessState.Completed (-1)))) ∧
    (wait_for_any_process s nb (WaitEvent.stopped pid) =
        some (some pid, s.set_process_state pid (ProcessState.Stopped pid))) ∧
    (wait_for_any_process s nb WaitEvent.stillAlive = some (none, s)) ∧
    (wait_for_any_process s nb WaitEvent.echild = some (none, s)) ∧
    (wait_for_any_process s nb WaitEvent.other = none) ∧
    ((s.set_process_state pid st).get_process_state pid = some st) ∧
    (q ≠ pid → (s.set_process_state pid st).get_process_state q =
        s.get_process_state q) := by
  refine ⟨rfl, rfl, rfl, rfl, rfl, rfl, ?_, ?_⟩
  · rw [get_set_process_state, if_pos rfl]
  · intro hq
    rw [get_set_process_state, if_neg (fun h => hq h.symm)]

theorem wait_for_any_process_translation_witness :
    (shellFix.set_process_state 5 ProcessState.Running).get_process_state 9 =
      shellFix.get_process_state 9 :=
  (wait_for_any_process_translation shellFix false 5 9 0 ProcessState.Running).2.2.2.2.2.2.2
    (by decide)

/-! ## C5: a PATH miss reports `command not found` without forking -/

/-- C5: when `argv[0]` neither starts with `/` nor with `./` and the
PATH table lookup misses, `run_external_command` returns `ExitedWith 1`
with the shell completely unchanged (in particular no job is created)
and the kernel oracle changed only by the diagnostic
``command not found `name` `` appended to standard error — in particular
the fork oracle is untouched, so no child process was created. -/
theorem path_miss_no_fork (ctx : Context) (s : Shell) (name : String)
    (rest : List String) (os : OS)
    (h1 : starts_with name "/" = false) (h2 : starts_with name "./" = false)
    (h3 : lookupS s.path_table name = none) :
    run_external_command ctx s (name :: rest) os =
      Res.ok (ExitStatus.ExitedWith 1, s,
        { os with stderr := os.stderr ++ ["command not found \x60" ++ name ++ "\x60"] }) := by
  rw [run_external_command]
  rw [h1, h2, h3]
  rfl

theorem path_miss_no_fork_witness :
    run_external_command { pgid := none, background := false, interactive := false }
        shellFix ["nonexistent_cmd_xyz"] osFix =
      Res.ok (ExitStatus.ExitedWith 1, shellFix,
        { osFix with stderr :=
            osFix.stderr ++ ["command not found \x60nonexistent_cmd_xyz\x60"] }) :=
  path_miss_no_fork { pgid := none, background := false, interactive := false }
    shellFix "nonexistent_cmd_xyz" [] osFix (by decide) (by decide) (by decide)

/-! ## C10: the interactive foreground path does not record last_status -/

/-- The foreground path writes none of the core shell fields — in
particular `last_status` is untouched. -/
theorem run_in_foreground_core (s : Shell) (job : Job) (os : OS)
    (st : ProcessState) (s1 : Shell) (os1 : OS)
    (h : run_in_foreground s job os = Res.ok (st, s1, os1)) :
    KeepsCore s s1 := by
  rw [run_in_foreground] at h
  cases hw : wait_for_job s job (set_terminal_process_group os job.pgid) with
  | ok v =>
    obtain ⟨st0, s0, os2⟩ := v
    rw [hw] at h
    have hcore := (wait_for_job_ok s job (set_terminal_process_group os job.pgid)
      st0 s0 os2 hw).1
    have h2 : (match s0.shell_termios with
        | none => Res.fatal
        | some tt =>
          Res.ok (st0,
            ({ s0 with
                jobs := updateA s0.jobs job.id
                  (fun j => { j with termios := some os2.terminal.attrs }) } : Shell),
            restore_terminal_attrs
              (set_terminal_process_group
                { os2 with trace := os2.trace ++ [TermOp.getAttrs] }
                s0.shell_pgid) tt)) = Res.ok (st, s1, os1) := h
    cases hs0t : s0.shell_termios with
    | none =>
      rw [hs0t] at h2
      have h3 : (Res.fatal : Res (ProcessState × Shell × OS)) =
          Res.ok (st, s1, os1) := h2
      cases h3
    | some t =>
      rw [hs0t] at h2
      have h3 : Res.ok (st0,
          ({ s0 with
              shell_termios := some t
              jobs := updateA s0.jobs job.id
                (fun j => { j with termios := some os2.terminal.attrs }) } : Shell),
          restore_terminal_attrs
            (set_terminal_process_group
              { os2 with trace := os2.trace ++ [TermOp.getAttrs] }
              s0.shell_pgid) t) = Res.ok (st, s1, os1) := h2
      injection h3 with h4
      injection h4 with hst1 h5
      injection h5 with hs1 hos1
      rw [← hs1]
      exact ⟨hcore.last_status_eq, hcore.interactive_eq, hcore.path_table_eq,
        by rw [← hcore.shell_termios_eq, hs0t], hcore.shell_pgid_eq,
        hcore.pid_job_mapping_eq⟩
  | err => rw [hw] at h; cases h
  | fatal => rw [hw] at h; cases h
  | exited c => rw [hw] at h; cases h
  | blocked => rw [hw] at h; cases h

/-- When every command of the command list spawns an external process,
the launch loop leaves the shell untouched and — unless the list is
empty — its last result is a `Running` pid. -/
theorem run_pipeline_loop_all_external (bg : Bool) (s : Shell) :
    ∀ (cmds : List Command) (os : OS) (last : Option ExitStatus)
      (childs : List Pid) (pg : Option Pid) (last1 : Option ExitStatus)
      (childs1 : List Pid) (pg1 : Option Pid) (s1 : Shell) (os1 : OS),
      (∀ cmd ∈ cmds, spawns_external s cmd = true) →
      run_pipeline_loop bg cmds s os last childs pg =
        Res.ok (last1, childs1, pg1, s1, os1) →
      s1 = s ∧ (cmds = [] → last1 = last) ∧
        (cmds ≠ [] → ∃ pid, last1 = some (ExitStatus.Running pid)) := by
  intro cmds
  induction cmds with
  | nil =>
    intro os last childs pg last1 childs1 pg1 s1 os1 hall h
    rw [run_pipeline_loop] at h
    injection h with h1
    injection h1 with ha h2
    injection h2 with hb h3
    injection h3 with hc h4
    injection h4 with hd he
    exact ⟨hd.symm, fun _ => ha.symm, fun hne => absurd rfl hne⟩
  | cons cmd rest ih =>
    intro os last childs pg last1 childs1 pg1 s1 os1 hall h
    rw [run_pipeline_loop] at h
    cases hc : run_command s cmd
        { pgid := pg, background := bg, interactive := s.interactive } os with
    | ok v =>
      obtain ⟨v1, s2, os2⟩ := v
      rw [hc] at h
      obtain ⟨hs2, pid, hpid, -⟩ := run_command_spawns s cmd
        { pgid := pg, background := bg, interactive := s.interactive }
        os v1 s2 os2 (hall cmd (List.mem_cons_self cmd rest)) hc
      rw [hpid] at h
      rw [hs2] at h
      have h2 : run_pipeline_loop bg rest s os2
          (some (ExitStatus.Running pid)) (childs ++ [pid])
          (if pg.isNone then some pid else pg) =
          Res.ok (last1, childs1, pg1, s1, os1) := h
      have hrec := ih os2 (some (ExitStatus.Running pid)) (childs ++ [pid])
        (if pg.isNone then some pid else pg) last1 childs1 pg1 s1 os1
        (fun c hcm => hall c (List.mem_cons_of_mem cmd hcm)) h2
      refine ⟨hrec.1, ?_, ?_⟩
      · intro hnil
        cases hnil
      · intro _
        cases rest with
        | nil => exact ⟨pid, (hrec.2.1 rfl)⟩
        | cons r rs => exact hrec.2.2 (by intro hx; cases hx)
    | err =>
      rw [hc] at h
      have h2 : (Res.fatal :
          Res (Option ExitStatus × List Pid × Option Pid × Shell × OS)) =
          Res.ok (last1, childs1, pg1, s1, os1) := h
      cases h2
    | fatal =>
      rw [hc] at h
      have h2 : (Res.fatal :
          Res (Option ExitStatus × List Pid × Option Pid × Shell × OS)) =
          Res.ok (last1, childs1, pg1, s1, os1) := h
      cases h2
    | exited c =>
      rw [hc] at h
      have h2 : (Res.exited c :
          Res (Option ExitStatus × List Pid × Option Pid × Shell × OS)) =
          Res.ok (last1, childs1, pg1, s1, os1) := h
      cases h2
    | blocked =>
      rw [hc] at h
      have h2 : (Res.blocked :
          Res (Option ExitStatus × List Pid × Option Pid × Shell × OS)) =
          Res.ok (last1, childs1, pg1, s1, os1) := h
      cases h2

/-- C10: in interactive mode, a pipeline whose commands all spawn
external processes and which runs to an exit status leaves the shell's
`last_status` unchanged — only a builtin ending the pipeline and the
non-interactive blocking-wait path call `set_last_status`, while the
interactive foreground-completion branch returns the status without
recording it. -/
theorem interactive_completion_keeps_last_status (s : Shell) (code : String)
    (pipeline : Pipeline) (bg : Bool) (os : OS) (st : Int) (s1 : Shell)
    (os1 : OS)
    (hint : s.interactive = true)
    (hne : pipeline.commands ≠ [])
    (hall : ∀ cmd ∈ pipeline.commands, spawns_external s cmd = true)
    (h : run_pipeline s code pipeline bg os =
      Res.ok (ExitStatus.ExitedWith st, s1, os1)) :
    s1.last_status = s.last_status := by
  rw [run_pipeline] at h
  cases hl : run_pipeline_loop bg pipeline.commands s os none [] none with
  | ok v =>
    obtain ⟨last1, childs1, pg1, s2, os2⟩ := v
    rw [hl] at h
    obtain ⟨hs2, -, hrun⟩ := run_pipeline_loop_all_external bg s
      pipeline.commands os none [] none last1 childs1 pg1 s2 os2 hall hl
    obtain ⟨pid, hlast1⟩ := hrun hne
    rw [hlast1, hs2] at h
    clear hl hrun hall
    cases pg1 with
    | none =>
      have h3 : (Res.fatal : Res (ExitStatus × Shell × OS)) =
          Res.ok (ExitStatus.ExitedWith st, s1, os1) := h
      cases h3
    | some pg =>
      have h2 : (if (!s.interactive) = true then
            match wait_for_job (s.create_job code pg childs1).2
                (s.create_job code pg childs1).1 os2 with
            | Res.ok (ProcessState.Completed status, s3, os3) =>
              Res.ok (ExitStatus.ExitedWith status,
                s3.set_last_status status, os3)
            | Res.ok (ProcessState.Stopped _, s3, os3) =>
              Res.ok (ExitStatus.Running pg, s3, os3)
            | Res.ok (ProcessState.Running, _, _) => Res.fatal
            | Res.err => Res.err
            | Res.fatal => Res.fatal
            | Res.exited c => Res.exited c
            | Res.blocked => Res.blocked
          else
            match run_in_foreground (s.create_job code pg childs1).2
                (s.create_job code pg childs1).1 os2 with
            | Res.ok (ProcessState.Completed status, s3, os3) =>
              Res.ok (ExitStatus.ExitedWith status, s3, os3)
            | Res.ok (ProcessState.Stopped _, s3, os3) =>
              Res.ok (ExitStatus.Running pg, s3, os3)
            | Res.ok (ProcessState.Running, _, _) => Res.fatal
            | Res.err => Res.err
            | Res.fatal => Res.fatal
            | Res.exited c => Res.exited c
            | Res.blocked => Res.blocked) =
          Res.ok (ExitStatus.ExitedWith st, s1, os1) := h
      rw [hint] at h2
      have h3 : (match run_in_foreground (s.create_job code pg childs1).2
              (s.create_job code pg childs1).1 os2 with
          | Res.ok (ProcessState.Completed status, s3, os3) =>
            Res.ok (ExitStatus.ExitedWith status, s3, os3)
          | Res.ok (ProcessState.Stopped _, s3, os3) =>
            Res.ok (ExitStatus.Running pg, s3, os3)
          | Res.ok (ProcessState.Running, _, _) => Res.fatal
          | Res.err => Res.err
          | Res.fatal => Res.fatal
          | Res.exited c => Res.exited c
          | Res.blocked => Res.blocked) =
          Res.ok (ExitStatus.ExitedWith st, s1, os1) := h2
      cases hf : run_in_foreground (s.create_job code pg childs1).2
          (s.create_job code pg childs1).1 os2 with
      | ok w =>
        obtain ⟨pst, s3, os3⟩ := w
        rw [hf] at h3
        cases pst with
        | Running =>
          have h4 : (Res.fatal : Res (ExitStatus × Shell × OS)) =
              Res.ok (ExitStatus.ExitedWith st, s1, os1) := h3
          cases h4
        | Completed c =>
          have h4 : Res.ok (ExitStatus.ExitedWith c, s3, os3) =
              Res.ok (ExitStatus.ExitedWith st, s1, os1) := h3
          injection h4 with h5
          injection h5 with hv h6
          injection h6 with hs3 hos3
          have hk := run_in_foreground_core (s.create_job code pg childs1).2
            (s.create_job code pg childs1).1 os2 (ProcessState.Completed c)
            s3 os3 hf
          rw [← hs3]
          rw [hk.last_status_eq]
          exact (create_job_spec s code pg childs1).2.1
        | Stopped p =>
          have h4 : Res.ok (ExitStatus.Running pg, s3, os3) =
              Res.ok (ExitStatus.ExitedWith st, s1, os1) := h3
          injection h4 with h5
          injection h5 with hv h6
          cases hv
      | err =>
        rw [hf] at h3
        have h4 : (Res.err : Res (ExitStatus × Shell × OS)) =
            Res.ok (ExitStatus.ExitedWith st, s1, os1) := h3
        cases h4
      | fatal =>
        rw [hf] at h3
        have h4 : (Res.fatal : Res (ExitStatus × Shell × OS)) =
            Res.ok (ExitStatus.ExitedWith st, s1, os1) := h3
        cases h4
      | exited c =>
        rw [hf] at h3
        have h4 : (Res.exited c : Res (ExitStatus × Shell × OS)) =
            Res.ok (ExitStatus.ExitedWith st, s1, os1) := h3
        cases h4
      | blocked =>
        rw [hf] at h3
        have h4 : (Res.blocked : Res (ExitStatus × Shell × OS)) =
            Res.ok (ExitStatus.ExitedWith st, s1, os1) := h3
        cases h4
  | err => rw [hl] at h; cases h
  | fatal => rw [hl] at h; cases h
  | exited c => rw [hl] at h; cases h
  | blocked => rw [hl] at h; cases h

/-- A one-command external pipeline `/bin/x`. -/
def fgPipeline : Pipeline :=
  { run_if := RunIf.Always
    commands := [Command.SimpleCommand [{ spans := [Span.Literal "/bin/x"] }]] }

/-- The oracle for the foreground witness: pid 9 is forked and then
reported exited with 0. -/
def fgOS : OS :=
  { forks := [9]
    events := [WaitEvent.exited 9 0]
    terminal := { fgPgrp := 10, attrs := 3 }
    stderr := []
    trace := [] }

/-! ## C6: well-formedness of the job bookkeeping -/

/-- The well-formedness of one job record against the shell's tables:
the pgid is the pid of the first process, and every pid of the job has a
`states` entry and is mapped back to this job by `pid_to_job`. -/
def JobWF (s : Shell) (j : Job) : Prop :=
  j.processes ≠ [] ∧
  j.processes.head? = some j.pgid ∧
  ∀ p ∈ j.processes, (s.get_process_state p).isSome = true ∧
    lookupA s.pid_job_mapping p = some j.id

/-- C6's invariant: every job in the registry is keyed by its own id and
is well formed. -/
def WF (s : Shell) : Prop :=
  ∀ id j, lookupA s.jobs id = some j → j.id = id ∧ JobWF s j

/-- The freshness the kernel guarantees for fork: the pids the oracle
will hand out are pairwise distinct and distinct from every pid of every
registered job. -/
def Fresh (s : Shell) (forks : List Pid) : Prop :=
  forks.Nodup ∧
  ∀ p ∈ forks, ∀ id j, lookupA s.jobs id = some j → p ∉ j.processes

/-- `WF` transports along any step that keeps `jobs` entries (up to the
identity fields), keeps `pid_job_mapping`, and loses no `states`
entry. -/
theorem WF_transport (s s1 : Shell)
    (hjobs : ∀ id j, lookupA s1.jobs id = some j →
      ∃ j0, lookupA s.jobs id = some j0 ∧ j0.id = j.id ∧
        j0.processes = j.processes ∧ j0.pgid = j.pgid)
    (hpjm : s1.pid_job_mapping = s.pid_job_mapping)
    (hmono : ∀ p, (lookupA s.states p).isSome = true →
      (lookupA s1.states p).isSome = true)
    (hwf : WF s) : WF s1 := by
  intro id j hj
  obtain ⟨j0, hj0, hid, hproc, hpg⟩ := hjobs id j hj
  obtain ⟨hid0, hne, hhead, hall⟩ := hwf id j0 hj0
  refine ⟨hid ▸ hid0, ?_, ?_, ?_⟩
  · rw [← hproc]
    exact hne
  · rw [← hproc, hhead, hpg]
  · intro p hp
    rw [← hproc] at hp
    obtain ⟨hs, hm⟩ := hall p hp
    exact ⟨hmono p hs, by rw [hpjm, hm, hid]⟩

/-- `Fresh` transports along any step that shrinks the fork oracle to a
suffix and maps every surviving job entry to an original entry with the
same pids. -/
theorem Fresh_transport (s s1 : Shell) (forks forks1 : List Pid)
    (hsuffix : ∃ consumed, forks = consumed ++ forks1)
    (hjobs : ∀ id j, lookupA s1.jobs id = some j →
      ∃ id0 j0, lookupA s.jobs id0 = some j0 ∧ j0.processes = j.processes)
    (hfr : Fresh s forks) : Fresh s1 forks1 := by
  obtain ⟨consumed, hcons⟩ := hsuffix
  obtain ⟨hnd, hdisj⟩ := hfr
  rw [hcons] at hnd
  refine ⟨hnd.of_append_right, ?_⟩
  intro p hp id j hj
  obtain ⟨id0, j0, hj0, hproc⟩ := hjobs id j hj
  rw [← hproc]
  exact hdisj p (by rw [hcons]; exact List.mem_append_right consumed hp) id0 j0 hj0

/-- Characterization of a successful `run_external_command`: the shell
is untouched and either one pid was forked (`Running`) or nothing was
(`ExitedWith 1` on a PATH miss). -/
theorem run_external_command_ok (ctx : Context) (s : Shell)
    (argv : List String) (os : OS) (v : ExitStatus) (s1 : Shell) (os1 : OS)
    (h : run_external_command ctx s argv os = Res.ok (v, s1, os1)) :
    s1 = s ∧ os1.events = os.events ∧
      ((∃ pid, v = ExitStatus.Running pid ∧ os.forks = pid :: os1.forks) ∨
        (v = ExitStatus.ExitedWith 1 ∧ os1.forks = os.forks)) := by
  cases argv with
  | nil =>
    rw [run_external_command] at h
    cases h
  | cons a0 rest =>
    rw [run_external_command] at h
    by_cases hsw : (starts_with a0 "/" || starts_with a0 "./") = true
    · rw [if_pos hsw] at h
      cases hc : cstring_new a0 with
      | none =>
        rw [hc] at h
        have h2 : (Res.err : Res (ExitStatus × Shell × OS)) =
            Res.ok (v, s1, os1) := h
        cases h2
      | some c =>
        rw [hc] at h
        obtain ⟨hs1, pid, hv, hforks, hev, -⟩ :=
          run_external_spawn_ok s (a0 :: rest) os v s1 os1 h
        exact ⟨hs1, hev, Or.inl ⟨pid, hv, hforks⟩⟩
    · rw [if_neg hsw] at h
      cases hl : lookupS s.path_table a0 with
      | some path =>
        rw [hl] at h
        have h2 : (match cstring_new path with
            | some _ => run_external_spawn s (a0 :: rest) os
            | none => Res.err) = Res.ok (v, s1, os1) := h
        cases hc : cstring_new path with
        | none =>
          rw [hc] at h2
          have h3 : (Res.err : Res (ExitStatus × Shell × OS)) =
              Res.ok (v, s1, os1) := h2
          cases h3
        | some c =>
          rw [hc] at h2
          obtain ⟨hs1, pid, hv, hforks, hev, -⟩ :=
            run_external_spawn_ok s (a0 :: rest) os v s1 os1 h2
          exact ⟨hs1, hev, Or.inl ⟨pid, hv, hforks⟩⟩
      | none =>
        rw [hl] at h
        injection h with h2
        injection h2 with hv h3
        injection h3 with hs1 hos1
        rw [← hv, ← hs1, ← hos1]
        exact ⟨rfl, rfl, Or.inr ⟨rfl, rfl⟩⟩

/-- Characterization of a successful command launch: the shell is
untouched (builtins here are `exit`, which never returns, and the `cd`
stub) and the fork oracle lost exactly the `Running` pid, or nothing. -/
theorem run_command_ok (s : Shell) (cmd : Command) (ctx : Context) (os : OS)
    (v : ExitStatus) (s1 : Shell) (os1 : OS)
    (h : run_command s cmd ctx os = Res.ok (v, s1, os1)) :
    s1 = s ∧ os1.events = os.events ∧
      ((∃ pid, v = ExitStatus.Running pid ∧ os.forks = pid :: os1.forks) ∨
        (∃ c, v = ExitStatus.ExitedWith c ∧ os1.forks = os.forks)) := by
  obtain ⟨argv⟩ := cmd
  rw [run_command, run_simple_command] at h
  cases he : expand_words argv with
  | ok args =>
    rw [he] at h
    cases args with
    | nil =>
      injection h with h2
      injection h2 with hv h3
      injection h3 with hs1 hos1
      rw [← hv, ← hs1, ← hos1]
      exact ⟨rfl, rfl, Or.inr ⟨0, rfl, rfl⟩⟩
    | cons a0 args1 =>
      have h3 : (match builtin_command a0 with
          | some b =>
            match b.run s with
            | Res.ok (status, s2) => Res.ok (status, s2, os)
            | Res.err => Res.err
            | Res.fatal => Res.fatal
            | Res.exited c => Res.exited c
            | Res.blocked => Res.blocked
          | none => run_external_command ctx s (a0 :: args1) os) =
          Res.ok (v, s1, os1) := h
      cases hb : builtin_command a0 with
      | some b =>
        rw [hb] at h3
        cases b with
        | exitB =>
          have h4 : (Res.exited 0 : Res (ExitStatus × Shell × OS)) =
              Res.ok (v, s1, os1) := h3
          cases h4
        | cdB =>
          have h4 : Res.ok (ExitStatus.ExitedWith 0, s, os) =
              Res.ok (v, s1, os1) := h3
          injection h4 with h5
          injection h5 with hv h6
          injection h6 with hs1 hos1
          rw [← hv, ← hs1, ← hos1]
          exact ⟨rfl, rfl, Or.inr ⟨0, rfl, rfl⟩⟩
      | none =>
        rw [hb] at h3
        have h4 : run_external_command ctx s (a0 :: args1) os =
            Res.ok (v, s1, os1) := h3
        obtain ⟨hs1, hev, hor⟩ :=
          run_external_command_ok ctx s (a0 :: args1) os v s1 os1 h4
        refine ⟨hs1, hev, ?_⟩
        rcases hor with ⟨pid, hv, hforks⟩ | ⟨hv, hforks⟩
        · exact Or.inl ⟨pid, hv, hforks⟩
        · exact Or.inr ⟨1, hv, hforks⟩
  | err => rw [he] at h; cases h
  | fatal => rw [he] at h; cases h
  | exited c => rw [he] at h; cases h
  | blocked => rw [he] at h; cases h

/-- Invariants of the whole launch loop: the shell is untouched, the
consumed fork pids are exactly the pids appended to `childs`, the pgid
stays the first child, and a final `Running` result implies a non-empty
child list. -/
theorem run_pipeline_loop_ok (bg : Bool) :
    ∀ (cmds : List Command) (s : Shell) (os : OS) (last : Option ExitStatus)
      (childs : List Pid) (pg : Option Pid) (last1 : Option ExitStatus)
      (childs1 : List Pid) (pg1 : Option Pid) (s1 : Shell) (os1 : OS),
      run_pipeline_loop bg cmds s os last childs pg =
        Res.ok (last1, childs1, pg1, s1, os1) →
      s1 = s ∧ os1.events = os.events ∧
      (∃ consumed, os.forks = consumed ++ os1.forks ∧
        childs1 = childs ++ consumed) ∧
      (pg = childs.head? → pg1 = childs1.head?) ∧
      ((∀ pid, last = some (ExitStatus.Running pid) → childs ≠ []) →
        (∀ pid, last1 = some (ExitStatus.Running pid) → childs1 ≠ [])) := by
  intro cmds
  induction cmds with
  | nil =>
    intro s os last childs pg last1 childs1 pg1 s1 os1 h
    rw [run_pipeline_loop] at h
    injection h with h1
    injection h1 with ha h2
    injection h2 with hb h3
    injection h3 with hc h4
    injection h4 with hd he
    rw [← ha, ← hb, ← hc, ← hd, ← he]
    exact ⟨rfl, rfl, ⟨[], by simp, by simp⟩, fun hp => hp, fun hr => hr⟩
  | cons cmd rest ih =>
    intro s os last childs pg last1 childs1 pg1 s1 os1 h
    rw [run_pipeline_loop] at h
    cases hc : run_command s cmd
        { pgid := pg, background := bg, interactive := s.interactive } os with
    | ok v =>
      obtain ⟨v1, s2, os2⟩ := v
      rw [hc] at h
      obtain ⟨hs2, hev, hor⟩ := run_command_ok s cmd
        { pgid := pg, background := bg, interactive := s.interactive }
        os v1 s2 os2 hc
      rcases hor with ⟨pid, hv, hforks⟩ | ⟨c, hv, hforks⟩
      · rw [hv, hs2] at h
        have h2 : run_pipeline_loop bg rest s os2
            (some (ExitStatus.Running pid)) (childs ++ [pid])
            (if pg.isNone then some pid else pg) =
            Res.ok (last1, childs1, pg1, s1, os1) := h
        obtain ⟨hs1, hev2, ⟨consumed, hf, hch⟩, hpg, hrun⟩ :=
          ih s os2 (some (ExitStatus.Running pid)) (childs ++ [pid])
            (if pg.isNone then some pid else pg) last1 childs1 pg1 s1 os1 h2
        refine ⟨hs1, hev2.trans hev, ⟨pid :: consumed, ?_, ?_⟩, ?_, ?_⟩
        · rw [hforks, hf]
          rfl
        · rw [hch]
          simp
        · intro hph
          have hstep : (if pg.isNone then some pid else pg) =
              (childs ++ [pid]).head? := by
            cases childs with
            | nil =>
              rw [hph]
              rfl
            | cons c0 cs =>
              rw [hph]
              rfl
          exact hpg hstep
        · intro _
          refine hrun ?_
          intro pid1 _
          simp
      · rw [hv, hs2] at h
        have h2 : run_pipeline_loop bg rest s os2
            (some (ExitStatus.ExitedWith c)) childs pg =
            Res.ok (last1, childs1, pg1, s1, os1) := h
        obtain ⟨hs1, hev2, ⟨consumed, hf, hch⟩, hpg, hrun⟩ :=
          ih s os2 (some (ExitStatus.ExitedWith c)) childs pg
            last1 childs1 pg1 s1 os1 h2
        refine ⟨hs1, hev2.trans hev, ⟨consumed, ?_, hch⟩, hpg, ?_⟩
        · rw [← hforks]
          exact hf
        · intro _
          refine hrun ?_
          intro pid1 hpid1
          injection hpid1 with hpid1
          cases hpid1
    | err =>
      rw [hc] at h
      have h2 : (Res.fatal :
          Res (Option ExitStatus × List Pid × Option Pid × Shell × OS)) =
          Res.ok (last1, childs1, pg1, s1, os1) := h
      cases h2
    | fatal =>
      rw [hc] at h
      have h2 : (Res.fatal :
          Res (Option ExitStatus × List Pid × Option Pid × Shell × OS)) =
          Res.ok (last1, childs1, pg1, s1, os1) := h
      cases h2
    | exited c =>
      rw [hc] at h
      have h2 : (Res.exited c :
          Res (Option ExitStatus × List Pid × Option Pid × Shell × OS)) =
          Res.ok (last1, childs1, pg1, s1, os1) := h
      cases h2
    | blocked =>
      rw [hc] at h
      have h2 : (Res.blocked :
          Res (Option ExitStatus × List Pid × Option Pid × Shell × OS)) =
          Res.ok (last1, childs1, pg1, s1, os1) := h
      cases h2

/-- `create_job` establishes well-formedness: under a fresh-pid caller
(the pids are not in any registered job) with `pgid` the first child,
the new registry is well formed. -/
theorem create_job_establishes (s : Shell) (name : String) (pg : Pid)
    (childs : List Pid) (hwf : WF s) (hhead : childs.head? = some pg)
    (hdisj : ∀ p ∈ childs, ∀ id j, lookupA s.jobs id = some j →
      p ∉ j.processes) :
    WF (s.create_job name pg childs).2 := by
  obtain ⟨hjob, hls, hint, hpt, hsht, hshp, hlf, hjobs, hstates, hpjm⟩ :=
    create_job_spec s name pg childs
  intro id j hj
  rw [hjobs, lookupA_insertA] at hj
  by_cases hid : s.alloc_job_id = id
  · rw [if_pos hid] at hj
    injection hj with hj
    rw [← hj]
    have hne : childs ≠ [] := by
      cases childs with
      | nil => cases hhead
      | cons c cs => intro hx; cases hx
    refine ⟨hid ▸ rfl, hne, hhead, ?_⟩
    intro p hp
    have hp1 : p ∈ childs := hp
    constructor
    · show (lookupA (s.create_job name pg childs).2.states p).isSome = true
      rw [hstates p, if_pos hp1]
      rfl
    · rw [hpjm p, if_pos hp1]
      rfl
  · rw [if_neg hid] at hj
    obtain ⟨hidj, hne, hh, hall⟩ := hwf id j hj
    refine ⟨hidj, hne, hh, ?_⟩
    intro p hp
    obtain ⟨hs0, hm⟩ := hall p hp
    have hpc : ¬ p ∈ childs := fun hpc => hdisj p hpc id j hj hp
    constructor
    · show (lookupA (s.create_job name pg childs).2.states p).isSome = true
      rw [hstates p, if_neg hpc]
      exact hs0
    · rw [hpjm p, if_neg hpc]
      exact hm

/-- `create_job` keeps the remaining fork pids fresh when the new job's
pids come from the consumed prefix of a duplicate-free fork list. -/
theorem create_job_preserves_fresh (s : Shell) (name : String) (pg : Pid)
    (childs rest : List Pid)
    (hnd : (childs ++ rest).Nodup)
    (hfr : ∀ p ∈ childs ++ rest, ∀ id j, lookupA s.jobs id = some j →
      p ∉ j.processes) :
    Fresh (s.create_job name pg childs).2 rest := by
  obtain ⟨hjob, hls, hint, hpt, hsht, hshp, hlf, hjobs, hstates, hpjm⟩ :=
    create_job_spec s name pg childs
  refine ⟨hnd.of_append_right, ?_⟩
  intro p hp id j hj
  rw [hjobs, lookupA_insertA] at hj
  by_cases hid : s.alloc_job_id = id
  · rw [if_pos hid] at hj
    injection hj with hj
    rw [← hj]
    show ¬ p ∈ childs
    intro hpc
    exact (List.nodup_append.mp hnd).2.2 hpc hp
  · rw [if_neg hid] at hj
    exact hfr p (List.mem_append_right childs hp) id j hj

/-- A successful `wait_for_job` preserves well-formedness; it does not
fork and only shrinks the registry. -/
theorem wait_for_job_preserves_wf (s : Shell) (job : Job) (os : OS)
    (st : ProcessState) (s1 : Shell) (os1 : OS) (hwf : WF s)
    (h : wait_for_job s job os = Res.ok (st, s1, os1)) :
    WF s1 ∧ os1.forks = os.forks ∧
      ∀ id j, lookupA s1.jobs id = some j → lookupA s.jobs id = some j := by
  obtain ⟨hcore, hmono, _, _, hforks, _, _, hshape, hcompl, hstop⟩ :=
    wait_for_job_ok s job os st s1 os1 h
  have hjobs : ∀ id j, lookupA s1.jobs id = some j →
      lookupA s.jobs id = some j := by
    rcases hshape with ⟨c, hc⟩ | ⟨p, hp⟩
    · intro id j hj
      rw [(hcompl c hc).1, lookupA_eraseA] at hj
      by_cases hid : job.id = id
      · rw [if_pos hid] at hj
        cases hj
      · rw [if_neg hid] at hj
        exact hj
    · intro id j hj
      rw [(hstop p hp).1] at hj
      exact hj
  exact ⟨WF_transport s s1 (fun id j hj => ⟨j, hjobs id j hj, rfl, rfl, rfl⟩)
    hcore.pid_job_mapping_eq hmono hwf, hforks, hjobs⟩

/-- A successful `run_in_foreground` preserves well-formedness; it does
not fork, and every surviving registry entry comes from an original one
with the same pids. -/
theorem run_in_foreground_preserves_wf (s : Shell) (job : Job) (os : OS)
    (st : ProcessState) (s1 : Shell) (os1 : OS) (hwf : WF s)
    (h : run_in_foreground s job os = Res.ok (st, s1, os1)) :
    WF s1 ∧ os1.forks = os.forks ∧
      ∀ id j, lookupA s1.jobs id = some j →
        ∃ j0, lookupA s.jobs id = some j0 ∧ j0.processes = j.processes := by
  rw [run_in_foreground] at h
  cases hw : wait_for_job s job (set_terminal_process_group os job.pgid) with
  | ok v =>
    obtain ⟨st0, s0, os2⟩ := v
    rw [hw] at h
    obtain ⟨hwf0, hforks0, hjobs0⟩ := wait_for_job_preserves_wf s job
      (set_terminal_process_group os job.pgid) st0 s0 os2 hwf hw
    have h2 : (match s0.shell_termios with
        | none => Res.fatal
        | some tt =>
          Res.ok (st0,
            ({ s0 with
                jobs := updateA s0.jobs job.id
                  (fun j => { j with termios := some os2.terminal.attrs }) } : Shell),
            restore_terminal_attrs
              (set_terminal_process_group
                { os2 with trace := os2.trace ++ [TermOp.getAttrs] }
                s0.shell_pgid) tt)) = Res.ok (st, s1, os1) := h
    cases hs0t : s0.shell_termios with
    | none =>
      rw [hs0t] at h2
      have h3 : (Res.fatal : Res (ProcessState × Shell × OS)) =
          Res.ok (st, s1, os1) := h2
      cases h3
    | some t =>
      rw [hs0t] at h2
      have h3 : Res.ok (st0,
          ({ s0 with
              shell_termios := some t
              jobs := updateA s0.jobs job.id
                (fun j => { j with termios := some os2.terminal.attrs }) } : Shell),
          restore_terminal_attrs
            (set_terminal_process_group
              { os2 with trace := os2.trace ++ [TermOp.getAttrs] }
              s0.shell_pgid) t) = Res.ok (st, s1, os1) := h2
      injection h3 with h4
      injection h4 with hst1 h5
      injection h5 with hs1 hos1
      have hjobs1 : ∀ id j, lookupA s1.jobs id = some j →
          ∃ j0, lookupA s0.jobs id = some j0 ∧ j0.id = j.id ∧
            j0.processes = j.processes ∧ j0.pgid = j.pgid := by
        intro id j hj
        rw [← hs1] at hj
        have hj2 : lookupA (updateA s0.jobs job.id
            (fun jj => { jj with termios := some os2.terminal.attrs })) id =
            some j := hj
        rw [lookupA_updateA] at hj2
        by_cases hid : job.id = id
        · rw [if_pos hid] at hj2
          cases hl0 : lookupA s0.jobs job.id with
          | none => rw [hl0] at hj2; cases hj2
          | some j0 =>
            rw [hl0] at hj2
            injection hj2 with hj2
            rw [← hid]
            exact ⟨j0, hl0, by rw [← hj2], by rw [← hj2], by rw [← hj2]⟩
        · rw [if_neg hid] at hj2
          exact ⟨j, hj2, rfl, rfl, rfl⟩
      have hwf1 : WF s1 := by
        refine WF_transport s0 s1 hjobs1 ?_ ?_ hwf0
        · rw [← hs1]
        · intro p hp
          rw [← hs1]
          exact hp
      refine ⟨hwf1, ?_, ?_⟩
      · rw [← hos1]
        show os2.forks = os.forks
        rw [hforks0]
        rfl
      · intro id j hj
        obtain ⟨j0, hj0, _, hproc, _⟩ := hjobs1 id j hj
        exact ⟨j0, hjobs0 id j0 hj0, hproc⟩
  | err => rw [hw] at h; cases h
  | fatal => rw [hw] at h; cases h
  | exited c => rw [hw] at h; cases h
  | blocked => rw [hw] at h; cases h

/-- `set_last_status` leaves the job bookkeeping untouched. -/
theorem set_last_status_wf (s : Shell) (c : Int) (hwf : WF s) :
    WF (s.set_last_status c) :=
  WF_transport s (s.set_last_status c) (fun _ j hj => ⟨j, hj, rfl, rfl, rfl⟩)
    rfl (fun _ hp => hp) hwf

/-- A successful `run_pipeline` preserves well-formedness and freshness
of the remaining fork pids. -/
theorem run_pipeline_preserves (s : Shell) (code : String) (pl : Pipeline)
    (bg : Bool) (os : OS) (v : ExitStatus) (s1 : Shell) (os1 : OS)
    (hwf : WF s) (hfr : Fresh s os.forks)
    (h : run_pipeline s code pl bg os = Res.ok (v, s1, os1)) :
    WF s1 ∧ Fresh s1 os1.forks := by
  rw [run_pipeline] at h
  cases hl : run_pipeline_loop bg pl.commands s os none [] none with
  | ok w =>
    obtain ⟨last1, childs1, pg1, s2, os2⟩ := w
    rw [hl] at h
    obtain ⟨hs2, -, ⟨consumed, hfk, hch⟩, hpginv, hrun⟩ :=
      run_pipeline_loop_ok bg pl.commands s os none [] none
        last1 childs1 pg1 s2 os2 hl
    rw [hs2] at h
    have hfr2 : Fresh s os2.forks :=
      Fresh_transport s s os.forks os2.forks ⟨consumed, hfk⟩
        (fun id j hj => ⟨id, j, hj, rfl⟩) hfr
    cases last1 with
    | none =>
      injection h with h2
      injection h2 with hv h3
      injection h3 with hs1 hos1
      rw [← hs1, ← hos1]
      exact ⟨hwf, hfr2⟩
    | some es =>
      cases es with
      | ExitedWith c =>
        injection h with h2
        injection h2 with hv h3
        injection h3 with hs1 hos1
        rw [← hs1, ← hos1]
        refine ⟨set_last_status_wf s c hwf, ?_⟩
        exact Fresh_transport s (s.set_last_status c) os2.forks os2.forks
          ⟨[], rfl⟩ (fun id j hj => ⟨id, j, hj, rfl⟩) hfr2
      | Running pid =>
        have hchne : childs1 ≠ [] :=
          hrun (fun pid1 hx => by cases hx) pid rfl
        have hpg1 : pg1 = childs1.head? := hpginv rfl
        cases pg1 with
        | none =>
          exfalso
          cases hch1 : childs1 with
          | nil => exact hchne hch1
          | cons c0 cs =>
            rw [hch1] at hpg1
            cases hpg1
        | some pg =>
          have hch1 : childs1 = consumed := by
            rw [hch]
            rfl
          obtain ⟨hnd, hdisj⟩ := hfr
          have hnd2 : (childs1 ++ os2.forks).Nodup := by
            rw [hch1, ← hfk]
            exact hnd
          have hdisj2 : ∀ p ∈ childs1 ++ os2.forks, ∀ id j,
              lookupA s.jobs id = some j → p ∉ j.processes := by
            intro p hp id j hj
            refine hdisj p ?_ id j hj
            rw [hfk, ← hch1]
            exact hp
          have hwfc : WF (s.create_job code pg childs1).2 :=
            create_job_establishes s code pg childs1 hwf hpg1.symm
              (fun p hp id j hj =>
                hdisj2 p (List.mem_append_left os2.forks hp) id j hj)
          have hfrc : Fresh (s.create_job code pg childs1).2 os2.forks :=
            create_job_preserves_fresh s code pg childs1 os2.forks hnd2 hdisj2
          have h2 : (if (!s.interactive) = true then
                match wait_for_job (s.create_job code pg childs1).2
                    (s.create_job code pg childs1).1 os2 with
                | Res.ok (ProcessState.Completed status, s3, os3) =>
                  Res.ok (ExitStatus.ExitedWith status,
                    s3.set_last_status status, os3)
                | Res.ok (ProcessState.Stopped _, s3, os3) =>
                  Res.ok (ExitStatus.Running pg, s3, os3)
                | Res.ok (ProcessState.Running, _, _) => Res.fatal
                | Res.err => Res.err
                | Res.fatal => Res.fatal
                | Res.exited c => Res.exited c
                | Res.blocked => Res.blocked
              else
                match run_in_foreground (s.create_job code pg childs1).2
                    (s.create_job code pg childs1).1 os2 with
                | Res.ok (ProcessState.Completed status, s3, os3) =>
                  Res.ok (ExitStatus.ExitedWith status, s3, os3)
                | Res.ok (ProcessState.Stopped _, s3, os3) =>
                  Res.ok (ExitStatus.Running pg, s3, os3)
                | Res.ok (ProcessState.Running, _, _) => Res.fatal
                | Res.err => Res.err
                | Res.fatal => Res.fatal
                | Res.exited c => Res.exited c
                | Res.blocked => Res.blocked) =
              Res.ok (v, s1, os1) := h
          by_cases hi : (!s.interactive) = true
          · rw [if_pos hi] at h2
            cases hwj : wait_for_job (s.create_job code pg childs1).2
                (s.create_job code pg childs1).1 os2 with
            | ok w2 =>
              obtain ⟨pst, s3, os3⟩ := w2
              rw [hwj] at h2
              obtain ⟨hwf3, hforks3, hjobs3⟩ := wait_for_job_preserves_wf
                (s.create_job code pg childs1).2
                (s.create_job code pg childs1).1 os2 pst s3 os3 hwfc hwj
              have hfr3 : Fresh s3 os3.forks :=
                Fresh_transport (s.create_job code pg childs1).2 s3
                  os2.forks os3.forks ⟨[], by rw [hforks3]; rfl⟩
                  (fun id j hj => ⟨id, j, hjobs3 id j hj, rfl⟩) hfrc
              cases pst with
              | Running =>
                have h3 : (Res.fatal : Res (ExitStatus × Shell × OS)) =
                    Res.ok (v, s1, os1) := h2
                cases h3
              | Completed c =>
                have h3 : Res.ok (ExitStatus.ExitedWith c,
                    s3.set_last_status c, os3) = Res.ok (v, s1, os1) := h2
                injection h3 with h4
                injection h4 with hv h5
                injection h5 with hs1 hos1
                rw [← hs1, ← hos1]
                refine ⟨set_last_status_wf s3 c hwf3, ?_⟩
                exact Fresh_transport s3 (s3.set_last_status c)
                  os3.forks os3.forks ⟨[], rfl⟩
                  (fun id j hj => ⟨id, j, hj, rfl⟩) hfr3
              | Stopped p =>
                have h3 : Res.ok (ExitStatus.Running pg, s3, os3) =
                    Res.ok (v, s1, os1) := h2
                injection h3 with h4
                injection h4 with hv h5
                injection h5 with hs1 hos1
                rw [← hs1, ← hos1]
                exact ⟨hwf3, hfr3⟩
            | err =>
              rw [hwj] at h2
              have h3 : (Res.err : Res (ExitStatus × Shell × OS)) =
                  Res.ok (v, s1, os1) := h2
              cases h3
            | fatal =>
              rw [hwj] at h2
              have h3 : (Res.fatal : Res (ExitStatus × Shell × OS)) =
                  Res.ok (v, s1, os1) := h2
              cases h3
            | exited c =>
              rw [hwj] at h2
              have h3 : (Res.exited c : Res (ExitStatus × Shell × OS)) =
                  Res.ok (v, s1, os1) := h2
              cases h3
            | blocked =>
              rw [hwj] at h2
              have h3 : (Res.blocked : Res (ExitStatus × Shell × OS)) =
                  Res.ok (v, s1, os1) := h2
              cases h3
          · rw [if_neg hi] at h2
            cases hwj : run_in_foreground (s.create_job code pg childs1).2
                (s.create_job code pg childs1).1 os2 with
            | ok w2 =>
              obtain ⟨pst, s3, os3⟩ := w2
              rw [hwj] at h2
              obtain ⟨hwf3, hforks3, hjobs3⟩ := run_in_foreground_preserves_wf
                (s.create_job code pg childs1).2
                (s.create_job code pg childs1).1 os2 pst s3 os3 hwfc hwj
              have hfr3 : Fresh s3 os3.forks :=
                Fresh_transport (s.create_job code pg childs1).2 s3
                  os2.forks os3.forks ⟨[], by rw [hforks3]; rfl⟩
                  (fun id j hj =>
                    match hjobs3 id j hj with
                    | ⟨j0, hj0, hproc⟩ => ⟨id, j0, hj0, hproc⟩) hfrc
              cases pst with
              | Running =>
                have h3 : (Res.fatal : Res (ExitStatus × Shell × OS)) =
                    Res.ok (v, s1, os1) := h2
                cases h3
              | Completed c =>
                have h3 : Res.ok (ExitStatus.ExitedWith c, s3, os3) =
                    Res.ok (v, s1, os1) := h2
                injection h3 with h4
                injection h4 with hv h5
                injection h5 with hs1 hos1
                rw [← hs1, ← hos1]
                exact ⟨hwf3, hfr3⟩
              | Stopped p =>
                have h3 : Res.ok (ExitStatus.Running pg, s3, os3) =
                    Res.ok (v, s1, os1) := h2
                injection h3 with h4
                injection h4 with hv h5
                injection h5 with hs1 hos1
                rw [← hs1, ← hos1]
                exact ⟨hwf3, hfr3⟩
            | err =>
              rw [hwj] at h2
              have h3 : (Res.err : Res (ExitStatus × Shell × OS)) =
                  Res.ok (v, s1, os1) := h2
              cases h3
            | fatal =>
              rw [hwj] at h2
              have h3 : (Res.fatal : Res (ExitStatus × Shell × OS)) =
                  Res.ok (v, s1, os1) := h2
              cases h3
            | exited c =>
              rw [hwj] at h2
              have h3 : (Res.exited c : Res (ExitStatus × Shell × OS)) =
                  Res.ok (v, s1, os1) := h2
              cases h3
            | blocked =>
              rw [hwj] at h2
              have h3 : (Res.blocked : Res (ExitStatus × Shell × OS)) =
                  Res.ok (v, s1, os1) := h2
              cases h3
  | err => rw [hl] at h; cases h
  | fatal => rw [hl] at h; cases h
  | exited c => rw [hl] at h; cases h
  | blocked => rw [hl] at h; cases h

theorem run_pipelines_loop_preserves (code : String) (bg : Bool) :
    ∀ (pls : List Pipeline) (last : ExitStatus) (s : Shell) (os : OS)
      (v : ExitStatus) (s1 : Shell) (os1 : OS),
      WF s → Fresh s os.forks →
      run_pipelines_loop code bg pls last s os = Res.ok (v, s1, os1) →
      WF s1 ∧ Fresh s1 os1.forks := by
  intro pls
  induction pls with
  | nil =>
    intro last s os v s1 os1 hwf hfr h
    rw [run_pipelines_loop] at h
    injection h with h2
    injection h2 with hv h3
    injection h3 with hs1 hos1
    rw [← hs1, ← hos1]
    exact ⟨hwf, hfr⟩
  | cons pipeline rest ih =>
    intro last s os v s1 os1 hwf hfr h
    rw [run_pipelines_loop] at h
    by_cases hg : gate_matches last pipeline.run_if = true
    · rw [if_pos hg] at h
      cases hp : run_pipeline s code pipeline bg os with
      | ok w =>
        obtain ⟨st2, s2, os2⟩ := w
        rw [hp] at h
        obtain ⟨hwf2, hfr2⟩ := run_pipeline_preserves s code pipeline bg os
          st2 s2 os2 hwf hfr hp
        exact ih st2 s2 os2 v s1 os1 hwf2 hfr2 h
      | err => rw [hp] at h; cases h
      | fatal => rw [hp] at h; cases h
      | exited c => rw [hp] at h; cases h
      | blocked => rw [hp] at h; cases h
    · rw [if_neg hg] at h
      exact ih last s os v s1 os1 hwf hfr h

theorem run_terms_loop_preserves :
    ∀ (terms : List Term) (last : ExitStatus) (s : Shell) (os : OS)
      (v : ExitStatus) (s1 : Shell) (os1 : OS),
      WF s → Fresh s os.forks →
      run_terms_loop terms last s os = Res.ok (v, s1, os1) →
      WF s1 ∧ Fresh s1 os1.forks := by
  intro terms
  induction terms with
  | nil =>
    intro last s os v s1 os1 hwf hfr h
    rw [run_terms_loop] at h
    injection h with h2
    injection h2 with hv h3
    injection h3 with hs1 hos1
    rw [← hs1, ← hos1]
    exact ⟨hwf, hfr⟩
  | cons term rest ih =>
    intro last s os v s1 os1 hwf hfr h
    rw [run_terms_loop] at h
    cases hp : run_pipelines_loop term.code term.background term.pipelines
        last s os with
    | ok w =>
      obtain ⟨st2, s2, os2⟩ := w
      rw [hp] at h
      obtain ⟨hwf2, hfr2⟩ := run_pipelines_loop_preserves term.code
        term.background term.pipelines last s os st2 s2 os2 hwf hfr hp
      exact ih st2 s2 os2 v s1 os1 hwf2 hfr2 h
    | err => rw [hp] at h; cases h
    | fatal => rw [hp] at h; cases h
    | exited c => rw [hp] at h; cases h
    | blocked => rw [hp] at h; cases h

/-- C6: the well-formedness of the job bookkeeping — for every job in
the registry, its pgid is the pid of its first process, every pid of the
job has a `states` entry, and `pid_to_job` maps the pid back to the job —
is established by `create_job` (given the kernel-guaranteed freshness of
the forked pids and the caller's pgid-is-first-child discipline of
`run_pipeline`) and preserved by every operation, in particular by a
whole `run_terms` evaluation. -/
theorem jobs_well_formed (s : Shell) (name : String) (pg : Pid)
    (childs : List Pid) (terms : List Term) (os : OS) (v : ExitStatus)
    (s1 : Shell) (os1 : OS) :
    (WF s → childs.head? = some pg →
      (∀ p ∈ childs, ∀ id j, lookupA s.jobs id = some j → p ∉ j.processes) →
      WF (s.create_job name pg childs).2) ∧
    (WF s → Fresh s os.forks →
      run_terms s terms os = Res.ok (v, s1, os1) → WF s1) := by
  constructor
  · intro hwf hhead hdisj
    exact create_job_establishes s name pg childs hwf hhead hdisj
  · intro hwf hfr h
    exact (run_terms_loop_preserves terms (ExitStatus.ExitedWith 0) s os
      v s1 os1 hwf hfr h).1

/-- An empty registry is well formed, and any fork list is fresh for
it. -/
theorem WF_shellFix : WF shellFix ∧ Fresh shellFix [5] := by
  refine ⟨?_, by decide, ?_⟩
  · intro id j hj
    cases hj
  · intro p hp id j hj
    cases hj

theorem jobs_well_formed_witness :
    WF (shellFix.create_job "sleep 1" 5 [5]).2 ∧ WF shellFix := by
  have hwf := WF_shellFix.1
  constructor
  · exact (jobs_well_formed shellFix "sleep 1" 5 [5] [] osFix
      (ExitStatus.ExitedWith 0) shellFix osFix).1 hwf (by decide)
      (fun p hp id j hj => by cases hj)
  · exact (jobs_well_formed shellFix "sleep 1" 5 [5] [] osFix
      (ExitStatus.ExitedWith 0) shellFix osFix).2 hwf WF_shellFix.2
      (by decide)

theorem interactive_completion_keeps_last_status_witness :
    ∃ s1 os1, run_pipeline fgShell "x" fgPipeline false fgOS =
      Res.ok (ExitStatus.ExitedWith 0, s1, os1) ∧
      s1.last_status = fgShell.last_status := by
  have hr : ∃ s1 os1, run_pipeline fgShell "x" fgPipeline false fgOS =
      Res.ok (ExitStatus.ExitedWith 0, s1, os1) := by
    refine ⟨?_, ?_, ?_⟩
    · exact match run_pipeline fgShell "x" fgPipeline false fgOS with
        | Res.ok (_, s1, _) => s1
        | _ => fgShell
    · exact match run_pipeline fgShell "x" fgPipeline false fgOS with
        | Res.ok (_, _, os1) => os1
        | _ => fgOS
    · decide
  obtain ⟨s1, os1, hr1⟩ := hr
  exact ⟨s1, os1, hr1,
    interactive_completion_keeps_last_status fgShell "x" fgPipeline false fgOS
      0 s1 os1 (by decide) (by decide) (by decide) hr1⟩

end Smash
